import Mathlib

/-!
Shallow embedding of the Wordfall puzzle engine (src/constants.ts, src/types.ts).

Strings are modelled as `List Char` (the source iterates words character by
character); tile colors are Lean `String`s matching the source's string
constants; JavaScript numbers holding integers are `ℕ`/`ℤ`; the float
values fed to probability comparisons are modelled as `ℚ`; calls to
`Math.random()` are modelled as explicit parameters so every definition is a
pure function of its inputs.
-/

set_option maxHeartbeats 1000000

/-- src/constants.ts: `GRID_SIZE = 6`. -/
def GRID_SIZE : ℕ := 6

/-- src/constants.ts: `MIN_WORD_LENGTH = 3`. -/
def MIN_WORD_LENGTH : ℕ := 3

/-- src/constants.ts: `MAX_WORD_LENGTH = 10`. -/
def MAX_WORD_LENGTH : ℕ := 10

/-- src/constants.ts: the five-entry tile color palette. -/
def TILE_COLORS : List String := ["PINK", "BLUE", "TEAL", "PURPLE", "INDIGO"]

/-- src/constants.ts: `WILD_COLOR = 'GOLD'`. -/
def WILD_COLOR : String := "GOLD"

/-- src/constants.ts: the weighted letter pool string. -/
def LETTER_POOL : List Char :=
  "EEEEEEEEEEEEAAAAAAAAAIIIIIIIIIOOOOOOOONNNNNNRRRRRRTTTTTTLLLLSSSSUUUUDDDDGGGBBCCMMPPFFHHVVWWYYKJXQZ".toList

/-- src/constants.ts: the `SCORES` record keyed by word length. -/
def SCORES : ℕ → Option ℕ
  | 3 => some 10
  | 4 => some 20
  | 5 => some 40
  | 6 => some 80
  | 7 => some 150
  | 8 => some 300
  | 9 => some 500
  | 10 => some 1000
  | _ => none

/-- src/types.ts `TileStatus` enum. -/
inductive TileStatus where
  | IDLE
  | SELECTED
  | VALID
  | REJECT
  | INVALID
  | MATCHED
  | EXPLODED
deriving DecidableEq, Repr

/-- src/types.ts `GameMode` enum. -/
inductive GameMode where
  | CASUAL
  | TIMED
deriving DecidableEq, Repr

/-- src/types.ts `Difficulty` enum. -/
inductive Difficulty where
  | EASY
  | NORMAL
  | HARD
deriving DecidableEq, Repr

/-- src/types.ts `Screen` enum. -/
inductive Screen where
  | MENU
  | GAME
  | GAMEOVER
  | LEVEL_UP
  | LEADERBOARD
deriving DecidableEq, Repr

/-- src/types.ts `Coordinate`: `{ r: number; c: number }`.  Coordinates are
`ℤ` because the neighbor computations in the source subtract 1 and rely on
explicit `>= 0` bounds checks. -/
structure Coordinate where
  r : ℤ
  c : ℤ
deriving DecidableEq, Repr

/-- src/types.ts `TileData`.  `id` (a random string in the source) is an
opaque `ℕ`, `key` (a random float) an opaque `ℚ`, `letter` a list of
characters (empty for blocked tiles). -/
structure TileData where
  id : ℕ
  letter : List Char
  status : TileStatus
  key : ℚ
  color : String
  isNew : Bool
  isBlocked : Bool
  isBomb : Bool
deriving DecidableEq, Repr

/-- The grid `TileData[][]`, addressed row-first like `grid[r][c]`. -/
abbrev Grid : Type := List (List TileData)

/-- Placeholder tile used for out-of-bounds reads; the source never reads
out of bounds (every access is behind a bounds check), so its value is
irrelevant to the theorems below. -/
def defaultTile : TileData :=
  { id := 0, letter := [], status := TileStatus.IDLE, key := 0, color := "GRAY",
    isNew := false, isBlocked := false, isBomb := false }

/-- `grid[r][c]` with the source's integer coordinates. -/
def tileAt (g : Grid) (r c : ℤ) : TileData :=
  if 0 ≤ r ∧ 0 ≤ c then ((g : List (List TileData)).getD r.toNat []).getD c.toNat defaultTile
  else defaultTile

/-- src/types.ts `GameState`. -/
structure GameState where
  score : ℕ
  wordCount : ℕ
  bestWord : List Char
  lastScoreAdded : Option ℕ
  level : ℕ
  timeLeft : ℕ
  targetScore : ℕ
  streakShort : ℕ
  streakLong : ℕ
deriving DecidableEq, Repr

/-- src/types.ts `HighScoreEntry`. -/
structure HighScoreEntry where
  score : ℤ
  bestWord : List Char
  date : ℤ
  level : Option ℕ
deriving DecidableEq, Repr

/-- The forced-spawn queue entries `'BLOCKED' | 'BOMB'` pushed by the streak
logic in `handleValidWord` and consumed by `applyGravity`. -/
inductive SpecialType where
  | BLOCKED
  | BOMB
deriving DecidableEq, Repr

/-! ## Trie (src/types.ts lines 183–211) -/

/-- src/types.ts `TrieNode`: `children: Record<string, TrieNode>` (modelled
as an association list in insertion order) and `isEndOfWord: boolean`. -/
inductive TrieNode where
  | mk (children : List (Char × TrieNode)) (isEndOfWord : Bool)

/-- Projection: the `children` record of a `TrieNode`. -/
def TrieNode.children : TrieNode → List (Char × TrieNode)
  | .mk cs _ => cs

/-- Projection: the `isEndOfWord` flag of a `TrieNode`. -/
def TrieNode.isEndOfWord : TrieNode → Bool
  | .mk _ e => e

/-- `new TrieNode()`: empty children, not an end of word. -/
def emptyTrieNode : TrieNode := .mk [] false

/-- `node.children[char]` record lookup. -/
def findChild : List (Char × TrieNode) → Char → Option TrieNode
  | [], _ => none
  | (c', t) :: rest, c => if c' = c then some t else findChild rest c

/-- Record update `node.children[char] = t` when the key is present. -/
def updateChild : List (Char × TrieNode) → Char → TrieNode → List (Char × TrieNode)
  | [], _, _ => []
  | (c', t') :: rest, c, t => if c' = c then (c, t) :: rest else (c', t') :: updateChild rest c t

/-- src/types.ts `Trie.insert`: walk the word, creating missing child nodes
(`if (!node.children[char]) node.children[char] = new TrieNode()`), then set
`isEndOfWord = true` at the final node.  The source's imperative walk is
rendered as structural recursion on the word. -/
def TrieNode.insert : TrieNode → List Char → TrieNode
  | .mk cs _, [] => .mk cs true
  | .mk cs e, c :: w =>
    match findChild cs c with
    | some child => .mk (updateChild cs c (child.insert w)) e
    | none => .mk (cs ++ [(c, emptyTrieNode.insert w)]) e

/-- src/types.ts `Trie.search`: returns `0` when the walk falls off the
trie, otherwise `2` if the final node has `isEndOfWord` and `1` if not. -/
def TrieNode.search : TrieNode → List Char → ℕ
  | t, [] => if t.isEndOfWord then 2 else 1
  | t, c :: w =>
    match findChild t.children c with
    | none => 0
    | some child => child.search w

/-- The trie built by the dictionary loader: `new Trie()` followed by
`words.forEach(w => newTrie.insert(w))` (src/types.ts lines 479–480). -/
def buildTrie (ws : List (List Char)) : TrieNode :=
  ws.foldl TrieNode.insert emptyTrieNode

/-! ## High score logic (src/types.ts lines 226–234) -/

/-- src/types.ts `saveScore`, with the `localStorage` contents for the mode
passed in as `prior` and the stored list returned alongside the boolean:
push the entry, sort descending by score (`(a, b) => b.score - a.score`),
keep the top 10, and report whether some kept entry matches the new entry's
`(date, score)` pair. -/
def saveScore (prior : List HighScoreEntry) (entry : HighScoreEntry) :
    Bool × List HighScoreEntry :=
  let scores := prior ++ [entry]
  let sorted := scores.mergeSort (fun a b => decide (b.score ≤ a.score))
  let topScores := sorted.take 10
  (topScores.any (fun s => decide (s.date = entry.date) && decide (s.score = entry.score)),
   topScores)

/-! ## Session state transitions -/

/-- src/types.ts `nextLevel` (lines 546–555): increment the level, set
`targetScore` to `Math.floor(prev.targetScore * 1.5) + 500`, and add 15
seconds of bonus time; every other field is copied unchanged. -/
def nextLevel (prev : GameState) : GameState :=
  { prev with
    level := prev.level + 1,
    targetScore := Nat.floor ((prev.targetScore : ℚ) * (3 / 2)) + 500,
    timeLeft := prev.timeLeft + 15 }

/-- src/types.ts `isShortPenalty` helper inside `handleValidWord` (lines
801–806). -/
def isShortPenalty (difficulty : Difficulty) (len : ℕ) : Bool :=
  match difficulty with
  | .EASY => false
  | .NORMAL => len == 3
  | .HARD => len == 3 || len == 4

/-- The streak/difficulty update of `handleValidWord` (src/types.ts lines
797–824): given the word length, the current streak counters and the
current special-spawn queue, produce the new `(streakShort, streakLong,
queue)`.  A queue push is `specialSpawnQueue.current.push(...)`, i.e. an
append at the back. -/
def streakUpdate (difficulty : Difficulty) (len : ℕ) (streakShort streakLong : ℕ)
    (queue : List SpecialType) : ℕ × ℕ × List SpecialType :=
  if isShortPenalty difficulty len then
    let s := streakShort + 1
    (s, 0, if 2 ≤ s then queue ++ [SpecialType.BLOCKED] else queue)
  else if 5 ≤ len then
    let l := streakLong + 1
    (0, l, if 2 ≤ l then queue ++ [SpecialType.BOMB] else queue)
  else
    (0, 0, queue)

/-! ## Word scoring (src/types.ts `handleValidWord`, lines 719–791) -/

/-- The word traced by a selection: the concatenation of the letters of the
selected tiles, `selection.map(s => grid[s.r][s.c].letter)` joined up. -/
def wordOf (g : Grid) (sel : List Coordinate) : List Char :=
  (sel.map (fun p => (tileAt g p.r p.c).letter)).flatten

/-- `SCORES[len] || SCORES[10] || 10` (src/types.ts line 722). -/
def baseWordScore (len : ℕ) : ℕ :=
  (SCORES len).getD ((SCORES 10).getD 10)

/-- The eight neighbors of a bomb tile, in the order the source lists
them (src/types.ts lines 730–734). -/
def bombAdj (p : Coordinate) : List Coordinate :=
  [⟨p.r - 1, p.c - 1⟩, ⟨p.r - 1, p.c⟩, ⟨p.r - 1, p.c + 1⟩,
   ⟨p.r, p.c - 1⟩, ⟨p.r, p.c + 1⟩,
   ⟨p.r + 1, p.c - 1⟩, ⟨p.r + 1, p.c⟩, ⟨p.r + 1, p.c + 1⟩]

/-- The `explodedTiles` accumulation of `handleValidWord` (src/types.ts
lines 725–749): for every selected bomb tile, every in-bounds neighbor that
is not part of the selection, not already collected, and not already in
`EXPLODED` status is appended. -/
def computeExploded (g : Grid) (sel : List Coordinate) : List Coordinate :=
  let bombTiles := sel.filter (fun p => (tileAt g p.r p.c).isBomb)
  bombTiles.foldl (fun acc bomb =>
    (bombAdj bomb).foldl (fun acc2 n =>
      if 0 ≤ n.r ∧ n.r < (GRID_SIZE : ℤ) ∧ 0 ≤ n.c ∧ n.c < (GRID_SIZE : ℤ) then
        if ¬ n ∈ sel ∧ ¬ n ∈ acc2 ∧ (tileAt g n.r n.c).status ≠ TileStatus.EXPLODED then
          acc2 ++ [n]
        else acc2
      else acc2) acc) []

/-- `colorsInWord` (src/types.ts lines 751–753): the selection's colors with
the wild color and the bomb marker color filtered out. -/
def colorsInWord (g : Grid) (sel : List Coordinate) : List String :=
  (sel.map (fun p => (tileAt g p.r p.c).color)).filter
    (fun col => decide (col ≠ WILD_COLOR ∧ col ≠ "RAINBOW"))

/-- `hasWild` (src/types.ts line 755). -/
def hasWild (g : Grid) (sel : List Coordinate) : Bool :=
  sel.any (fun p => decide ((tileAt g p.r p.c).color = WILD_COLOR))

/-- `isColorMatch` (src/types.ts lines 756–757): `colorsInWord.length > 0`
and `new Set(colorsInWord).size <= 1`. -/
def isColorMatch (g : Grid) (sel : List Coordinate) : Bool :=
  decide (colorsInWord g sel ≠ []) && decide ((colorsInWord g sel).dedup.length ≤ 1)

/-- The `totalScore` that `handleValidWord` adds to the session score and
records in `lastScoreAdded` (src/types.ts lines 759–780 and 837–850): the
base score, tripled on a wild tile or else doubled on a color match, plus
50 points per exploded tile added after the multiplication. -/
def totalScoreOf (g : Grid) (sel : List Coordinate) : ℕ :=
  let base := baseWordScore (wordOf g sel).length
  let afterMult :=
    if hasWild g sel then base * 3
    else if isColorMatch g sel then base * 2
    else base
  afterMult + (computeExploded g sel).length * 50

/-! ## Selection building and evaluation (src/types.ts lines 593–667) -/

/-- src/types.ts `isAdjacent` (lines 342–346). -/
def isAdjacent (c1 c2 : Coordinate) : Prop :=
  |c1.r - c2.r| ≤ 1 ∧ |c1.c - c2.c| ≤ 1 ∧ ¬(c1.r - c2.r = 0 ∧ c1.c - c2.c = 0)

instance (c1 c2 : Coordinate) : Decidable (isAdjacent c1 c2) := by
  unfold isAdjacent; infer_instance

/-- The status chosen by `evaluateSelection` (src/types.ts lines 593–610):
`REJECT` by default; for a non-empty word, `VALID` when the trie lookup is
2 and the length reaches `MIN_WORD_LENGTH`, `SELECTED` when the lookup is
non-zero, `REJECT` otherwise. -/
def evalStatus (trie : TrieNode) (g : Grid) (sel : List Coordinate) : TileStatus :=
  let word := wordOf g sel
  if 0 < word.length then
    let lookup := trie.search word
    if lookup = 2 ∧ MIN_WORD_LENGTH ≤ word.length then TileStatus.VALID
    else if lookup ≠ 0 then TileStatus.SELECTED
    else TileStatus.REJECT
  else TileStatus.REJECT

/-- Overwrite the status of the tile at row `r`, position `c`. -/
def setStatusRow : List TileData → ℕ → TileStatus → List TileData
  | [], _, _ => []
  | t :: ts, 0, st => { t with status := st } :: ts
  | t :: ts, n + 1, st => t :: setStatusRow ts n st

/-- Apply `setStatusRow` to row `r` of the grid, leaving other rows alone. -/
def setStatusRows : List (List TileData) → ℕ → ℕ → TileStatus → List (List TileData)
  | [], _, _, _ => []
  | row :: rest, 0, c, st => setStatusRow row c st :: rest
  | row :: rest, r + 1, c, st => row :: setStatusRows rest r c st

/-- Overwrite the status of the tile at a coordinate (no-op out of
bounds; the source never writes out of bounds). -/
def setStatusAt (g : Grid) (p : Coordinate) (st : TileStatus) : Grid :=
  if 0 ≤ p.r ∧ 0 ≤ p.c then
    setStatusRows (g : List (List TileData)) p.r.toNat p.c.toNat st
  else g

/-- src/types.ts `updateTileStatus` (lines 681–692): reset every tile that
is not `MATCHED`/`EXPLODED` to `IDLE`, then set all the given coordinates
to the given status. -/
def updateTileStatus (g : Grid) (coords : List Coordinate) (st : TileStatus) : Grid :=
  let reset := (g : List (List TileData)).map (fun row => row.map (fun t =>
    { t with status :=
        if t.status = TileStatus.MATCHED ∨ t.status = TileStatus.EXPLODED then t.status
        else TileStatus.IDLE }))
  coords.foldl (fun acc p => setStatusAt acc p st) reset

/-- src/types.ts `evaluateSelection` (lines 593–610), restricted to its
grid effect: compute the status of the current selection and apply it to
the path tiles via `updateTileStatus`. -/
def evaluateSelection (trie : TrieNode) (g : Grid) (sel : List Coordinate) : Grid :=
  updateTileStatus g sel (evalStatus trie g sel)

/-- The selection-state effect of src/types.ts `handleTouchStart` (lines
612–620): nothing happens while animating/loading/off-screen, nothing
happens on a blocked tile, otherwise the selection becomes the single
touched coordinate. -/
def touchStartSel (g : Grid) (sel : List Coordinate) (animating isLoading : Bool)
    (screen : Screen) (r c : ℤ) : List Coordinate :=
  if animating = true ∨ isLoading = true ∨ screen ≠ Screen.GAME then sel
  else if (tileAt g r c).isBlocked then sel
  else [⟨r, c⟩]

/-- The selection-state effect of src/types.ts `handleTouchMove` (lines
622–667) once the hit test has resolved a tile coordinate `(r, c)`:
guards, the blocked-tile rejection, the backtrack pop, and the
adjacent-unvisited append. -/
def touchMoveSel (g : Grid) (sel : List Coordinate) (animating isLoading : Bool)
    (screen : Screen) (r c : ℤ) : List Coordinate :=
  if animating = true ∨ isLoading = true ∨ sel.length = 0 ∨ screen ≠ Screen.GAME then sel
  else if (tileAt g r c).isBlocked then sel
  else
    let last := sel.getLastD ⟨0, 0⟩
    if 1 < sel.length ∧ sel.getD (sel.length - 2) ⟨0, 0⟩ = ⟨r, c⟩ then
      sel.dropLast
    else if ¬ (⟨r, c⟩ : Coordinate) ∈ sel ∧ isAdjacent last ⟨r, c⟩ then
      sel ++ [⟨r, c⟩]
    else sel

/-! ## Deadlock search (src/types.ts `findFirstWord`, lines 371–409) -/

/-- `grid.length`. -/
def rowsOf (g : Grid) : ℕ := (g : List (List TileData)).length

/-- `grid[0].length`. -/
def colsOf (g : Grid) : ℕ := ((g : List (List TileData)).getD 0 []).length

/-- The eight neighbors enumerated by `findFirstWord` (src/types.ts lines
385–389), in source order. -/
def searchNeighbors (r c : ℤ) : List (ℤ × ℤ) :=
  [(r - 1, c - 1), (r - 1, c), (r - 1, c + 1),
   (r, c - 1), (r, c + 1),
   (r + 1, c - 1), (r + 1, c), (r + 1, c + 1)]

/-- The recursive `search` closure of `findFirstWord` (src/types.ts lines
375–400), with an explicit fuel parameter standing in for the call stack:
blocked tiles are never traversed, a `NoMatch` lookup abandons the branch,
an `ExactWord` lookup of length ≥ `MIN_WORD_LENGTH` returns the path, a
string of length ≥ 8 abandons the branch, and otherwise the in-bounds
unvisited neighbors are searched in order, returning the first success.
`findFirstWord` invokes this with provably sufficient fuel
(see the termination theorem below). -/
def searchStep (g : Grid) (trie : TrieNode) :
    ℕ → ℤ → ℤ → List Coordinate → List Char → Option (List Coordinate)
  | 0, _, _, _, _ => none
  | fuel + 1, r, c, path, currentStr =>
    if (tileAt g r c).isBlocked then none
    else
      let str := currentStr ++ (tileAt g r c).letter
      let lookup := trie.search str
      if lookup = 0 then none
      else if lookup = 2 ∧ MIN_WORD_LENGTH ≤ str.length then some (path ++ [⟨r, c⟩])
      else if 8 ≤ str.length then none
      else
        (searchNeighbors r c).findSome? (fun n =>
          if 0 ≤ n.1 ∧ n.1 < (rowsOf g : ℤ) ∧ 0 ≤ n.2 ∧ n.2 < (colsOf g : ℤ) then
            if ¬ ∃ p ∈ path, p.r = n.1 ∧ p.c = n.2 then
              searchStep g trie fuel n.1 n.2 (path ++ [⟨r, c⟩]) str
            else none
          else none)

/-- The row-major enumeration of starting cells in `findFirstWord`'s outer
loops (src/types.ts lines 402–407). -/
def allCells (g : Grid) : List (ℤ × ℤ) :=
  ((List.range (rowsOf g)).map (fun r =>
    (List.range (colsOf g)).map (fun c => (Int.ofNat r, Int.ofNat c)))).flatten

/-- `findFirstWord` with an explicit fuel bound for the recursion depth of
its `search` closure. -/
def findFirstWordFuel (g : Grid) (trie : TrieNode) (fuel : ℕ) : Option (List Coordinate) :=
  (allCells g).findSome? (fun rc => searchStep g trie fuel rc.1 rc.2 [] [])

/-- src/types.ts `findFirstWord` (lines 371–409): try every starting cell
in row-major order and return the first path found.  The fuel
`rows*cols + 1` is sufficient because every recursive call extends a
duplicate-free in-bounds path (proved below). -/
def findFirstWord (g : Grid) (trie : TrieNode) : Option (List Coordinate) :=
  findFirstWordFuel g trie (rowsOf g * colsOf g + 1)

/-! ## Tile generation and gravity (src/types.ts lines 241–327 and 890–917) -/

/-- The random draws consumed by one call to `generateTile`, made explicit:
`roll` is the blocked/bomb draw, `wildRoll` the wild-color draw, and the
index fields are the outcomes of `Math.floor(Math.random() * n)` for the
letter pool, the color palette, the tile id and the React key. -/
structure TileRands where
  roll : ℚ
  wildRoll : ℚ
  letterIdx : ℕ
  colorIdx : ℕ
  idVal : ℕ
  keyVal : ℚ
deriving DecidableEq, Repr

/-- `getRandomLetter` (src/types.ts line 238) at a given random index. -/
def getRandomLetter (idx : ℕ) : List Char :=
  [LETTER_POOL.getD (idx % LETTER_POOL.length) 'E']

/-- src/types.ts `generateTile` (lines 241–327): forced types short-circuit
the probability model; otherwise a uniform roll is compared against the
mode- and level-dependent blocked chance, then against an additional 8%
bomb chance, and finally a wild draw picks between the gold color and a
uniform palette color.  Floats are modelled as exact rationals. -/
def generateTile (level : ℕ) (mode : GameMode) (isNew : Bool)
    (forcedType : Option SpecialType) (rnd : TileRands) : TileData :=
  match forcedType with
  | some SpecialType.BLOCKED =>
    { id := rnd.idVal, letter := [], status := TileStatus.IDLE, key := rnd.keyVal,
      color := "GRAY", isNew := isNew, isBlocked := true, isBomb := false }
  | some SpecialType.BOMB =>
    { id := rnd.idVal, letter := getRandomLetter rnd.letterIdx, status := TileStatus.IDLE,
      key := rnd.keyVal, color := "RAINBOW", isNew := isNew, isBlocked := false, isBomb := true }
  | none =>
    let blockedChance : ℚ :=
      if mode = GameMode.TIMED then min (25 / 100) ((level : ℚ) * (3 / 100))
      else min (20 / 100) ((4 / 100) + (level : ℚ) * (1 / 100))
    if rnd.roll < blockedChance then
      { id := rnd.idVal, letter := [], status := TileStatus.IDLE, key := rnd.keyVal,
        color := "GRAY", isNew := isNew, isBlocked := true, isBomb := false }
    else if rnd.roll < blockedChance + 8 / 100 then
      { id := rnd.idVal, letter := getRandomLetter rnd.letterIdx, status := TileStatus.IDLE,
        key := rnd.keyVal, color := "RAINBOW", isNew := isNew, isBlocked := false, isBomb := true }
    else
      let isWild := rnd.wildRoll < 8 / 100
      let color := if isWild then WILD_COLOR else TILE_COLORS.getD (rnd.colorIdx % TILE_COLORS.length) "PINK"
      { id := rnd.idVal, letter := getRandomLetter rnd.letterIdx, status := TileStatus.IDLE,
        key := rnd.keyVal, color := color, isNew := isNew, isBlocked := false, isBomb := false }

instance : Inhabited TileRands := ⟨{ roll := 0, wildRoll := 0, letterIdx := 0, colorIdx := 0, idVal := 0, keyVal := 0 }⟩

/-- The `newTiles` generation loop in `applyGravity` (src/types.ts lines
903–909): generate `needed` tiles, each popping the front of the
special-spawn queue when it is non-empty, otherwise using the probability
model; the random stream supplies each call's draws.  Returns the
generated tiles together with the remaining queue and stream. -/
def genTiles (level : ℕ) (mode : GameMode) :
    ℕ → List SpecialType → List TileRands →
    List TileData × List SpecialType × List TileRands
  | 0, q, rs => ([], q, rs)
  | n + 1, q, rs =>
    let forced : Option SpecialType := q.head?
    let q' := q.tail
    let t := generateTile level mode true forced (rs.headD default)
    let rest := genTiles level mode n q' rs.tail
    (t :: rest.1, rest.2)

/-- Column `c` of the grid, top to bottom: `prev[0][c], ..., prev[N-1][c]`. -/
def getCol (g : Grid) (c : ℕ) : List TileData :=
  (g : List (List TileData)).map (fun row => row.getD c defaultTile)

/-- The per-column survivor pass of `applyGravity` (src/types.ts lines
894–899): keep the tiles whose status is neither `MATCHED` nor `EXPLODED`,
in top-to-bottom order, clearing `isNew`. -/
def survivorsOf (col : List TileData) : List TileData :=
  (col.filter (fun t => decide (t.status ≠ TileStatus.MATCHED ∧ t.status ≠ TileStatus.EXPLODED))).map
    (fun t => { t with isNew := false })

/-- One column step of `applyGravity` (src/types.ts lines 893–914): compute
the survivors, generate `GRID_SIZE - survivors.length` new tiles (consuming
the forced queue first), and stack `[...newTiles, ...survivors]`. -/
def gravityColumn (level : ℕ) (mode : GameMode) (col : List TileData)
    (q : List SpecialType) (rs : List TileRands) :
    List TileData × List SpecialType × List TileRands :=
  let colTiles := survivorsOf col
  let needed := GRID_SIZE - colTiles.length
  let gen := genTiles level mode needed q rs
  (gen.1 ++ colTiles, gen.2)

/-- The column loop of `applyGravity`: process the given column indices in
order, threading the forced-spawn queue and the random stream across
columns, and return the merged columns. -/
def gravityColumns (g : Grid) (level : ℕ) (mode : GameMode) :
    List ℕ → List SpecialType → List TileRands → List (List TileData)
  | [], _, _ => []
  | c :: cs, q, rs =>
    let step := gravityColumn level mode (getCol g c) q rs
    step.1 :: gravityColumns g level mode cs step.2.1 step.2.2

/-- src/types.ts `applyGravity` (lines 890–917), restricted to its grid
effect: for each column `c` of the old grid, compact the survivors and
refill from the top (`newGrid[r][c] = mergedCol[r]`), consuming the
special-spawn queue left to right. -/
def applyGravity (g : Grid) (level : ℕ) (mode : GameMode)
    (q : List SpecialType) (rs : List TileRands) : Grid :=
  let cols := gravityColumns g level mode (List.range GRID_SIZE) q rs
  (List.range GRID_SIZE).map (fun r =>
    (List.range GRID_SIZE).map (fun c => (cols.getD c []).getD r defaultTile))

/-! ## Auxiliary definitions used by the statements and proofs -/

/-- The node reached by walking a string through the trie, if any (the
walk `Trie.search` performs before inspecting `isEndOfWord`). -/
def TrieNode.findNode : TrieNode → List Char → Option TrieNode
  | t, [] => some t
  | t, c :: w =>
    match findChild t.children c with
    | none => none
    | some child => child.findNode w

/-- Whether the node reached by `s` (if any) has `isEndOfWord` set. -/
def trieEndAt (t : TrieNode) (s : List Char) : Bool :=
  match t.findNode s with
  | none => false
  | some n => n.isEndOfWord

/-- A coordinate that actually addresses a tile of the grid. -/
def inGrid (g : Grid) (p : Coordinate) : Prop :=
  0 ≤ p.r ∧ 0 ≤ p.c ∧ p.r.toNat < rowsOf g ∧
    p.c.toNat < ((g : List (List TileData)).getD p.r.toNat []).length

instance (g : Grid) (p : Coordinate) : Decidable (inGrid g p) := by
  unfold inGrid; infer_instance

/-- The base-score table exactly as the claim states it: `{3→10, 4→20,
5→40, 6→80, 7→150, 8→300, 9→500, 10→1000}`, with lengths above 10 scoring
the length-10 value (the claim only speaks about lengths ≥ 3). -/
def specBaseScore : ℕ → ℕ
  | 3 => 10
  | 4 => 20
  | 5 => 40
  | 6 => 80
  | 7 => 150
  | 8 => 300
  | 9 => 500
  | _ => 1000

/-- The score multiplier exactly as the claim states it: 3 when some path
tile has the WILD color; else 2 when at least one path tile has a
non-wild, non-bomb color and all such tiles share that single color;
else 1. -/
def specMultiplier (g : Grid) (sel : List Coordinate) : ℕ :=
  if ∃ p ∈ sel, (tileAt g p.r p.c).color = WILD_COLOR then 3
  else if (∃ p ∈ sel, (tileAt g p.r p.c).color ≠ WILD_COLOR ∧ (tileAt g p.r p.c).color ≠ "RAINBOW") ∧
      (∀ p ∈ sel, ∀ p' ∈ sel,
        (tileAt g p.r p.c).color ≠ WILD_COLOR → (tileAt g p.r p.c).color ≠ "RAINBOW" →
        (tileAt g p'.r p'.c).color ≠ WILD_COLOR → (tileAt g p'.r p'.c).color ≠ "RAINBOW" →
        (tileAt g p.r p.c).color = (tileAt g p'.r p'.c).color) then 2
  else 1

/-- The short-penalty classification exactly as the claim states it: never
on EASY; length exactly 3 on NORMAL; length 3 or 4 on HARD. -/
def shortPenaltySpec (d : Difficulty) (len : ℕ) : Prop :=
  (d = Difficulty.NORMAL ∧ len = 3) ∨ (d = Difficulty.HARD ∧ (len = 3 ∨ len = 4))

instance (d : Difficulty) (len : ℕ) : Decidable (shortPenaltySpec d len) := by
  unfold shortPenaltySpec; infer_instance

/-! ## Concrete instances used by the witnesses and counterexamples -/

/-- A plain letter tile (PINK, not special) with a given status. -/
def plainTile (l : Char) (st : TileStatus) : TileData :=
  { id := 0, letter := [l], status := st, key := 0, color := "PINK",
    isNew := false, isBlocked := false, isBomb := false }

/-- A blocked tile as `generateTile` produces it: no letter, gray. -/
def blockedTileW : TileData :=
  { id := 0, letter := [], status := TileStatus.IDLE, key := 0, color := "GRAY",
    isNew := false, isBlocked := true, isBomb := false }

/-- A one-word dictionary trie holding CAT. -/
def catTrie : TrieNode := buildTrie [['C','A','T']]

/-- A 1-row grid spelling CAT whose tiles are all in `MATCHED` status. -/
def gridMatchedCAT : Grid :=
  [[plainTile 'C' TileStatus.MATCHED, plainTile 'A' TileStatus.MATCHED,
    plainTile 'T' TileStatus.MATCHED]]

/-- A 1-row grid spelling CAT followed by a blocked tile. -/
def gridCATBlocked : Grid :=
  [[plainTile 'C' TileStatus.IDLE, plainTile 'A' TileStatus.IDLE,
    plainTile 'T' TileStatus.IDLE, blockedTileW]]

/-- A 1-row grid spelling CAT with idle tiles. -/
def gridCAT : Grid :=
  [[plainTile 'C' TileStatus.IDLE, plainTile 'A' TileStatus.IDLE,
    plainTile 'T' TileStatus.IDLE]]

/-- A 1-row grid spelling CAT where the C tile is wild (GOLD) and the A
tile is a bomb (RAINBOW). -/
def gridWildBomb : Grid :=
  [[{ plainTile 'C' TileStatus.IDLE with color := WILD_COLOR },
    { plainTile 'A' TileStatus.IDLE with color := "RAINBOW", isBomb := true },
    plainTile 'T' TileStatus.IDLE]]

/-- A full 6-by-6 grid of plain idle tiles with one MATCHED tile at the top
of column 0. -/
def gridSix : Grid :=
  [plainTile 'A' TileStatus.MATCHED :: List.replicate 5 (plainTile 'B' TileStatus.IDLE)]
    ++ List.replicate 5 (List.replicate 6 (plainTile 'C' TileStatus.IDLE))

/-! # Theorems -/

/-! ## Trie lemmas -/

@[simp]
theorem TrieNode.children_mk (cs : List (Char × TrieNode)) (e : Bool) :
    (TrieNode.mk cs e).children = cs := rfl

@[simp]
theorem TrieNode.isEndOfWord_mk (cs : List (Char × TrieNode)) (e : Bool) :
    (TrieNode.mk cs e).isEndOfWord = e := rfl

theorem findChild_append (cs ds : List (Char × TrieNode)) (c : Char) :
    findChild (cs ++ ds) c =
      match findChild cs c with
      | some t => some t
      | none => findChild ds c := by
  induction cs with
  | nil => simp [findChild]
  | cons hd tl ih =>
    obtain ⟨c', t⟩ := hd
    by_cases h : c' = c <;> simp [findChild, h, ih]

theorem findChild_updateChild_self (cs : List (Char × TrieNode)) (c : Char) (t : TrieNode)
    (h : (findChild cs c).isSome) : findChild (updateChild cs c t) c = some t := by
  induction cs with
  | nil => simp [findChild] at h
  | cons hd tl ih =>
    obtain ⟨c', t'⟩ := hd
    by_cases hc : c' = c
    · simp [findChild, updateChild, hc]
    · simp only [findChild, updateChild, hc, if_false, if_neg hc] at h ⊢
      exact ih h

theorem findChild_updateChild_ne (cs : List (Char × TrieNode)) (c c' : Char) (t : TrieNode)
    (h : c' ≠ c) : findChild (updateChild cs c t) c' = findChild cs c' := by
  induction cs with
  | nil => simp [updateChild]
  | cons hd tl ih =>
    obtain ⟨c'', t''⟩ := hd
    by_cases hc : c'' = c
    · subst hc
      have hne : ¬ (c'' = c') := fun hx => h (hx.symm)
      simp [findChild, updateChild, hne]
    · by_cases hc' : c'' = c' <;> simp [findChild, updateChild, hc, hc', ih, h]

theorem findNode_empty_isSome (s : List Char) :
    ((emptyTrieNode).findNode s).isSome = decide (s = []) := by
  cases s with
  | nil => simp [emptyTrieNode, TrieNode.findNode]
  | cons b s' => simp [emptyTrieNode, TrieNode.findNode, findChild]

theorem trieEndAt_empty (s : List Char) : trieEndAt emptyTrieNode s = false := by
  cases s with
  | nil => simp [emptyTrieNode, trieEndAt, TrieNode.findNode]
  | cons b s' => simp [emptyTrieNode, trieEndAt, TrieNode.findNode, findChild]

theorem findNode_insert_isSome (w : List Char) :
    ∀ (t : TrieNode) (s : List Char),
      ((t.insert w).findNode s).isSome = ((t.findNode s).isSome || decide (s <+: w)) := by
  induction w with
  | nil =>
    intro t s
    obtain ⟨cs, e⟩ := t
    cases s with
    | nil => simp [TrieNode.insert, TrieNode.findNode]
    | cons b s' =>
      simp only [TrieNode.insert, TrieNode.findNode, TrieNode.children_mk, List.prefix_nil]
      cases hfc : findChild cs b <;> simp [hfc]
  | cons a w' ih =>
    intro t s
    obtain ⟨cs, e⟩ := t
    cases hfc : findChild cs a with
    | some child =>
      cases s with
      | nil => simp [TrieNode.insert, hfc, TrieNode.findNode]
      | cons b s' =>
        by_cases hb : b = a
        · subst hb
          have hupd : findChild (updateChild cs b (child.insert w')) b = some (child.insert w') :=
            findChild_updateChild_self cs b _ (by rw [hfc]; rfl)
          simp only [TrieNode.insert, hfc, TrieNode.findNode, TrieNode.children_mk, hupd,
            List.cons_prefix_cons, true_and]
          rw [ih]
        · have hupd : findChild (updateChild cs a (child.insert w')) b = findChild cs b :=
            findChild_updateChild_ne cs a b _ hb
          have hpre : ¬ ((b :: s') <+: (a :: w')) := by
            rw [List.cons_prefix_cons]; rintro ⟨h1, -⟩; exact hb h1
          simp only [TrieNode.insert, hfc, TrieNode.findNode, TrieNode.children_mk, hupd, hpre]
          simp
    | none =>
      cases s with
      | nil => simp [TrieNode.insert, hfc, TrieNode.findNode]
      | cons b s' =>
        by_cases hb : b = a
        · subst hb
          have happ : findChild (cs ++ [(b, emptyTrieNode.insert w')]) b
              = some (emptyTrieNode.insert w') := by
            rw [findChild_append, hfc]; simp [findChild]
          simp only [TrieNode.insert, hfc, TrieNode.findNode, TrieNode.children_mk, happ,
            List.cons_prefix_cons, true_and]
          rw [ih, findNode_empty_isSome]
          by_cases hs' : s' = []
          · subst hs'; simp
          · simp [hs']
        · have happ : findChild (cs ++ [(a, emptyTrieNode.insert w')]) b = findChild cs b := by
            rw [findChild_append]
            cases hcb : findChild cs b
            · have hab : ¬ (a = b) := fun hx => hb (hx.symm)
              simp [findChild, hab]
            · rfl
          have hpre : ¬ ((b :: s') <+: (a :: w')) := by
            rw [List.cons_prefix_cons]; rintro ⟨h1, -⟩; exact hb h1
          simp only [TrieNode.insert, hfc, TrieNode.findNode, TrieNode.children_mk, happ, hpre]
          simp

theorem trieEndAt_insert (w : List Char) :
    ∀ (t : TrieNode) (s : List Char),
      trieEndAt (t.insert w) s = (trieEndAt t s || decide (s = w)) := by
  induction w with
  | nil =>
    intro t s
    obtain ⟨cs, e⟩ := t
    cases s with
    | nil => simp [TrieNode.insert, trieEndAt, TrieNode.findNode]
    | cons b s' =>
      simp only [TrieNode.insert, trieEndAt, TrieNode.findNode, TrieNode.children_mk]
      cases hfc : findChild cs b <;> simp [hfc]
  | cons a w' ih =>
    intro t s
    obtain ⟨cs, e⟩ := t
    cases hfc : findChild cs a with
    | some child =>
      cases s with
      | nil => simp [TrieNode.insert, hfc, trieEndAt, TrieNode.findNode]
      | cons b s' =>
        by_cases hb : b = a
        · subst hb
          have hupd : findChild (updateChild cs b (child.insert w')) b = some (child.insert w') :=
            findChild_updateChild_self cs b _ (by rw [hfc]; rfl)
          simp only [TrieNode.insert, hfc, trieEndAt, TrieNode.findNode, TrieNode.children_mk,
            hupd, List.cons.injEq, true_and]
          have := ih child s'
          simp only [trieEndAt] at this
          rw [this]
        · have hupd : findChild (updateChild cs a (child.insert w')) b = findChild cs b :=
            findChild_updateChild_ne cs a b _ hb
          have hne : ¬ (b :: s' = a :: w') := by
            intro hx; exact hb (List.cons.injEq .. |>.mp hx).1
          simp only [TrieNode.insert, hfc, trieEndAt, TrieNode.findNode, TrieNode.children_mk, hupd, hne]
          simp
    | none =>
      cases s with
      | nil => simp [TrieNode.insert, hfc, trieEndAt, TrieNode.findNode]
      | cons b s' =>
        by_cases hb : b = a
        · subst hb
          have happ : findChild (cs ++ [(b, emptyTrieNode.insert w')]) b
              = some (emptyTrieNode.insert w') := by
            rw [findChild_append]
            cases hcb : findChild cs b
            · simp [findChild]
            · rw [hcb] at hfc; exact absurd hfc (by simp)
          simp only [TrieNode.insert, hfc, trieEndAt, TrieNode.findNode, TrieNode.children_mk,
            happ, List.cons.injEq, true_and]
          have := ih emptyTrieNode s'
          simp only [trieEndAt] at this
          rw [this]
          have hempty := trieEndAt_empty s'
          simp only [trieEndAt] at hempty
          rw [hempty]
        · have happ : findChild (cs ++ [(a, emptyTrieNode.insert w')]) b = findChild cs b := by
            rw [findChild_append]
            cases hcb : findChild cs b
            · have hab : ¬ (a = b) := fun hx => hb (hx.symm)
              simp [findChild, hab]
            · rfl
          have hne : ¬ (b :: s' = a :: w') := by
            intro hx; exact hb (List.cons.injEq .. |>.mp hx).1
          simp only [TrieNode.insert, hfc, trieEndAt, TrieNode.findNode, TrieNode.children_mk, happ, hne]
          simp

theorem findNode_buildTrie_isSome (ws : List (List Char)) :
    ∀ (t : TrieNode) (s : List Char),
      ((ws.foldl TrieNode.insert t).findNode s).isSome
        = ((t.findNode s).isSome || ws.any (fun w => decide (s <+: w))) := by
  induction ws with
  | nil => intro t s; simp
  | cons w ws ih =>
    intro t s
    simp only [List.foldl_cons, List.any_cons]
    rw [ih, findNode_insert_isSome]
    cases (t.findNode s).isSome <;> cases hd : decide (s <+: w) <;> simp [hd]

theorem trieEndAt_buildTrie (ws : List (List Char)) :
    ∀ (t : TrieNode) (s : List Char),
      trieEndAt (ws.foldl TrieNode.insert t) s
        = (trieEndAt t s || ws.any (fun w => decide (s = w))) := by
  induction ws with
  | nil => intro t s; simp
  | cons w ws ih =>
    intro t s
    simp only [List.foldl_cons, List.any_cons]
    rw [ih, trieEndAt_insert]
    cases trieEndAt t s <;> cases hd : decide (s = w) <;> simp [hd]

theorem search_eq_findNode (s : List Char) :
    ∀ t : TrieNode, t.search s =
      match t.findNode s with
      | none => 0
      | some n => if n.isEndOfWord then 2 else 1 := by
  induction s with
  | nil => intro t; simp [TrieNode.search, TrieNode.findNode]
  | cons c w ih =>
    intro t
    simp only [TrieNode.search, TrieNode.findNode]
    cases hfc : findChild t.children c
    · rfl
    · exact ih _

/-- Complete characterization of `Trie.search` on a trie built from a word
list: 2 on the inserted words, 1 on the other prefixes of inserted words
(and on the empty string), 0 everywhere else. -/
theorem search_buildTrie (ws : List (List Char)) (s : List Char) :
    (buildTrie ws).search s =
      if s ∈ ws then 2
      else if s = [] ∨ ∃ w ∈ ws, s <+: w then 1
      else 0 := by
  have h1 : ((buildTrie ws).findNode s).isSome = true ↔ (s = [] ∨ ∃ w ∈ ws, s <+: w) := by
    rw [buildTrie, findNode_buildTrie_isSome, findNode_empty_isSome]
    simp [List.any_eq_true]
  have h2 : trieEndAt (buildTrie ws) s = true ↔ s ∈ ws := by
    rw [buildTrie, trieEndAt_buildTrie, trieEndAt_empty]
    simp [List.any_eq_true]
  rw [search_eq_findNode]
  cases hfn : (buildTrie ws).findNode s with
  | none =>
    have hs : ¬ (s = [] ∨ ∃ w ∈ ws, s <+: w) := by
      rw [← h1, hfn]; simp
    have hm : s ∉ ws := fun hmem => hs (Or.inr ⟨s, hmem, List.prefix_refl s⟩)
    rw [if_neg hm, if_neg hs]
  | some n =>
    by_cases he : n.isEndOfWord = true
    · have hmem : s ∈ ws := h2.mp (by unfold trieEndAt; rw [hfn]; exact he)
      rw [if_pos hmem]
      simp [he]
    · have hm : s ∉ ws := by
        intro hmem
        have := h2.mpr hmem
        unfold trieEndAt at this
        rw [hfn] at this
        exact he this
      have hs : s = [] ∨ ∃ w ∈ ws, s <+: w := h1.mp (by rw [hfn]; rfl)
      rw [if_neg hm, if_pos hs]
      simp [he]

/-- C3: for every finite list of words inserted into the trie, `search`
returns 2 (ExactWord) on every inserted word, 1 (PrefixOnly) on every
non-empty strict prefix of an inserted word that was not itself inserted,
and 0 (NoMatch) on any non-empty string having no common non-empty prefix
with any inserted word. -/
theorem claim_C3_trie_search (ws : List (List Char)) :
    (∀ w ∈ ws, (buildTrie ws).search w = 2) ∧
    (∀ p w, w ∈ ws → p ≠ [] → p <+: w → p ≠ w → p ∉ ws → (buildTrie ws).search p = 1) ∧
    (∀ s, s ≠ [] → (∀ w ∈ ws, ¬ ∃ q, q ≠ [] ∧ q <+: s ∧ q <+: w) →
      (buildTrie ws).search s = 0) := by
  refine ⟨?_, ?_, ?_⟩
  · intro w hw
    rw [search_buildTrie, if_pos hw]
  · intro p w hw _ hpre _ hnp
    rw [search_buildTrie, if_neg hnp, if_pos (Or.inr ⟨w, hw, hpre⟩)]
  · intro s hs hnosh
    have hnm : s ∉ ws := fun hmem =>
      (hnosh s hmem) ⟨s, hs, List.prefix_refl s, List.prefix_refl s⟩
    have hnp : ¬ (s = [] ∨ ∃ w ∈ ws, s <+: w) := by
      rintro (h | ⟨w, hw, hp⟩)
      · exact hs h
      · exact (hnosh w hw) ⟨s, hs, List.prefix_refl s, hp⟩
    rw [search_buildTrie, if_neg hnm, if_neg hnp]

/-- Witness for C3 on the dictionary {CAT, CART}: CAT is an exact word,
CA a prefix only, DOG a no-match. -/
theorem claim_C3_trie_search_witness :
    (buildTrie [['C','A','T'], ['C','A','R','T']]).search ['C','A','T'] = 2 ∧
    (buildTrie [['C','A','T'], ['C','A','R','T']]).search ['C','A'] = 1 ∧
    (buildTrie [['C','A','T'], ['C','A','R','T']]).search ['D','O','G'] = 0 := by
  refine ⟨(claim_C3_trie_search _).1 ['C','A','T'] (by decide),
    (claim_C3_trie_search _).2.1 ['C','A'] ['C','A','T']
      (by decide) (by decide) (by decide) (by decide) (by decide),
    (claim_C3_trie_search _).2.2 ['D','O','G'] (by decide) ?_⟩
  intro w hw
  rintro ⟨q, hq, hqs, hqw⟩
  cases q with
  | nil => exact hq rfl
  | cons a q' =>
    have h1 : a = 'D' := (List.cons_prefix_cons.mp hqs).1
    have hw' : w = ['C','A','T'] ∨ w = ['C','A','R','T'] := by simpa using hw
    rcases hw' with rfl | rfl
    · have h2 : a = 'C' := (List.cons_prefix_cons.mp hqw).1
      rw [h1] at h2
      exact absurd h2 (by decide)
    · have h2 : a = 'C' := (List.cons_prefix_cons.mp hqw).1
      rw [h1] at h2
      exact absurd h2 (by decide)

/-- C9: for every trie built from a word list, searching the empty string
never yields 0 (NoMatch); as long as the empty string itself was not
inserted (the game dictionary only holds words of length 3–10), it yields
exactly 1 (PrefixOnly), even when no word at all has been inserted. -/
theorem claim_C9_empty_search (ws : List (List Char)) :
    (buildTrie ws).search [] ≠ 0 ∧
    ([] ∉ ws → (buildTrie ws).search [] = 1) := by
  constructor
  · rw [search_buildTrie]
    by_cases h : ([] : List Char) ∈ ws
    · rw [if_pos h]; decide
    · rw [if_neg h, if_pos (Or.inl rfl)]; decide
  · intro h
    rw [search_buildTrie, if_neg h, if_pos (Or.inl rfl)]

/-- Witness for C9: on the empty trie the empty string searches to 1. -/
theorem claim_C9_empty_search_witness :
    (buildTrie []).search [] = 1 ∧ (buildTrie []).search [] ≠ 0 :=
  ⟨(claim_C9_empty_search []).2 (by decide), (claim_C9_empty_search []).1⟩

/-! ## Session-state claims -/

/-- C10: `nextLevel` increments the level by exactly 1, sets the target
score to `floor(targetScore * 1.5) + 500`, adds exactly 15 to the time
left, and leaves score, word count, best word, last score added and both
streak counters unchanged (in particular the score is not reset). -/
theorem claim_C10_nextLevel (s : GameState) :
    (nextLevel s).level = s.level + 1 ∧
    (nextLevel s).targetScore = Nat.floor ((s.targetScore : ℚ) * (3 / 2)) + 500 ∧
    (nextLevel s).targetScore = 3 * s.targetScore / 2 + 500 ∧
    (nextLevel s).timeLeft = s.timeLeft + 15 ∧
    (nextLevel s).score = s.score ∧
    (nextLevel s).wordCount = s.wordCount ∧
    (nextLevel s).bestWord = s.bestWord ∧
    (nextLevel s).lastScoreAdded = s.lastScoreAdded ∧
    (nextLevel s).streakShort = s.streakShort ∧
    (nextLevel s).streakLong = s.streakLong := by
  refine ⟨rfl, rfl, ?_, rfl, rfl, rfl, rfl, rfl, rfl, rfl⟩
  show Nat.floor ((s.targetScore : ℚ) * (3 / 2)) + 500 = 3 * s.targetScore / 2 + 500
  have h : (s.targetScore : ℚ) * (3 / 2) = ((3 * s.targetScore : ℕ) : ℚ) / ((2 : ℕ) : ℚ) := by
    push_cast
    ring
  rw [h, Nat.floor_div_nat, Nat.floor_natCast]

/-! ## Streak claims (C6) -/

/-- The code's `isShortPenalty` agrees with the claim's classification:
never on EASY, exactly length 3 on NORMAL, length 3 or 4 on HARD. -/
theorem isShortPenalty_iff (d : Difficulty) (len : ℕ) :
    isShortPenalty d len = true ↔ shortPenaltySpec d len := by
  cases d <;> simp [isShortPenalty, shortPenaltySpec]

/-- C6: on a valid word commit, a short-penalty word increments
`streakShort`, zeroes `streakLong` and pushes exactly one `Blocked` iff
the incremented streak is ≥ 2; otherwise a word of length ≥ 5 increments
`streakLong`, zeroes `streakShort` and pushes exactly one `Bomb` iff the
incremented streak is ≥ 2; otherwise both streaks reset and nothing is
pushed.  In particular two consecutive 3-letter words on NORMAL (from a
fresh short streak) push exactly one `Blocked`, on the second word only. -/
theorem claim_C6_streaks (d : Difficulty) (len ss sl : ℕ) (q : List SpecialType) :
    (shortPenaltySpec d len →
      streakUpdate d len ss sl q =
        (ss + 1, 0, if 2 ≤ ss + 1 then q ++ [SpecialType.BLOCKED] else q)) ∧
    (¬ shortPenaltySpec d len → 5 ≤ len →
      streakUpdate d len ss sl q =
        (0, sl + 1, if 2 ≤ sl + 1 then q ++ [SpecialType.BOMB] else q)) ∧
    (¬ shortPenaltySpec d len → len < 5 →
      streakUpdate d len ss sl q = (0, 0, q)) ∧
    (d = Difficulty.NORMAL → len = 3 → ss = 0 →
      (streakUpdate d len ss sl q).2.2 = q ∧
      (streakUpdate d len (streakUpdate d len ss sl q).1
        (streakUpdate d len ss sl q).2.1 (streakUpdate d len ss sl q).2.2).2.2
        = q ++ [SpecialType.BLOCKED]) := by
  refine ⟨?_, ?_, ?_, ?_⟩
  · intro h
    have hb : isShortPenalty d len = true := (isShortPenalty_iff d len).mpr h
    simp [streakUpdate, hb]
  · intro h h5
    have hb : isShortPenalty d len = false := by
      cases hx : isShortPenalty d len
      · rfl
      · exact absurd ((isShortPenalty_iff d len).mp hx) h
    simp [streakUpdate, hb, h5]
  · intro h h5
    have hb : isShortPenalty d len = false := by
      cases hx : isShortPenalty d len
      · rfl
      · exact absurd ((isShortPenalty_iff d len).mp hx) h
    have h5' : ¬ 5 ≤ len := by omega
    simp [streakUpdate, hb, h5']
  · rintro rfl rfl rfl
    refine ⟨?_, ?_⟩
    · simp [streakUpdate, isShortPenalty]
    · simp [streakUpdate, isShortPenalty]

/-- Witness for C6: from streaks (1, 0) a NORMAL 3-letter word pushes one
Blocked; from fresh streaks (0, 0) it pushes nothing. -/
theorem claim_C6_streaks_witness :
    streakUpdate Difficulty.NORMAL 3 1 0 [] = (2, 0, [SpecialType.BLOCKED]) ∧
    streakUpdate Difficulty.NORMAL 3 0 0 [] = (1, 0, []) := by
  have h1 := (claim_C6_streaks Difficulty.NORMAL 3 1 0 []).1 (by decide)
  have h2 := (claim_C6_streaks Difficulty.NORMAL 3 0 0 []).1 (by decide)
  constructor
  · simpa using h1
  · simpa using h2

/-! ## Leaderboard claim (C8) -/

/-- C8: after `saveScore`, the stored list has at most 10 entries and is
sorted descending by score, and the returned boolean is `true` exactly
when some stored entry matches the new entry's `(timestamp, score)` pair,
i.e. when the new entry (identified by that pair) ranks within the
10-capped, score-descending list. -/
theorem claim_C8_saveScore (prior : List HighScoreEntry) (entry : HighScoreEntry) :
    (saveScore prior entry).2.length ≤ 10 ∧
    List.Pairwise (fun a b : HighScoreEntry => b.score ≤ a.score) (saveScore prior entry).2 ∧
    ((saveScore prior entry).1 = true ↔
      ∃ s ∈ (saveScore prior entry).2, s.date = entry.date ∧ s.score = entry.score) := by
  refine ⟨?_, ?_, ?_⟩
  · simp only [saveScore]
    rw [List.length_take]
    exact min_le_left _ _
  · have hs := @List.sorted_mergeSort HighScoreEntry
      (fun a b : HighScoreEntry => decide (b.score ≤ a.score))
      (fun a b c hab hbc => by
        simp only [decide_eq_true_iff] at *
        exact le_trans hbc hab)
      (fun a b => by
        rcases le_total a.score b.score with h | h <;> simp [h])
      (prior ++ [entry])
    have htake := List.Pairwise.sublist (List.take_sublist 10 _) hs
    simp only [saveScore]
    exact htake.imp (fun h => of_decide_eq_true h)
  · simp only [saveScore, List.any_eq_true, Bool.and_eq_true, decide_eq_true_iff]

/-! ## Grid status-update lemmas (for C5) -/

theorem setStatusRow_length (row : List TileData) (n : ℕ) (st : TileStatus) :
    (setStatusRow row n st).length = row.length := by
  induction row generalizing n with
  | nil => rfl
  | cons t ts ih =>
    cases n with
    | zero => rfl
    | succ m => simp [setStatusRow, ih]

theorem getD_setStatusRow_self (row : List TileData) (n : ℕ) (st : TileStatus) (d : TileData)
    (h : n < row.length) :
    (setStatusRow row n st).getD n d = { row.getD n d with status := st } := by
  induction row generalizing n with
  | nil => simp at h
  | cons t ts ih =>
    cases n with
    | zero => simp [setStatusRow]
    | succ m =>
      simp only [setStatusRow, List.getD_cons_succ]
      exact ih m (by simpa using h)

theorem getD_setStatusRow_ne (row : List TileData) (n m : ℕ) (st : TileStatus) (d : TileData)
    (h : m ≠ n) : (setStatusRow row n st).getD m d = row.getD m d := by
  induction row generalizing n m with
  | nil => rfl
  | cons t ts ih =>
    cases n with
    | zero =>
      cases m with
      | zero => exact absurd rfl h
      | succ k => simp [setStatusRow]
    | succ j =>
      cases m with
      | zero => simp [setStatusRow]
      | succ k =>
        simp only [setStatusRow, List.getD_cons_succ]
        exact ih j k (by omega)

theorem setStatusRows_length (g : List (List TileData)) (r c : ℕ) (st : TileStatus) :
    (setStatusRows g r c st).length = g.length := by
  induction g generalizing r with
  | nil => rfl
  | cons row rest ih =>
    cases r with
    | zero => rfl
    | succ j => simp [setStatusRows, ih]

theorem getD_setStatusRows_self (g : List (List TileData)) (r c : ℕ) (st : TileStatus) :
    (setStatusRows g r c st).getD r [] = setStatusRow (g.getD r []) c st := by
  induction g generalizing r with
  | nil => cases r <;> rfl
  | cons row rest ih =>
    cases r with
    | zero => rfl
    | succ j =>
      simp only [setStatusRows, List.getD_cons_succ]
      exact ih j

theorem getD_setStatusRows_ne (g : List (List TileData)) (r r' c : ℕ) (st : TileStatus)
    (h : r' ≠ r) : (setStatusRows g r c st).getD r' [] = g.getD r' [] := by
  induction g generalizing r r' with
  | nil => rfl
  | cons row rest ih =>
    cases r with
    | zero =>
      cases r' with
      | zero => exact absurd rfl h
      | succ k => simp [setStatusRows]
    | succ j =>
      cases r' with
      | zero => simp [setStatusRows]
      | succ k =>
        simp only [setStatusRows, List.getD_cons_succ]
        exact ih j k (by omega)

theorem rowLength_setStatusAt (g : Grid) (q : Coordinate) (st : TileStatus) (r : ℕ) :
    (((setStatusAt g q st) : List (List TileData)).getD r []).length
      = ((g : List (List TileData)).getD r []).length := by
  unfold setStatusAt
  by_cases hg : 0 ≤ q.r ∧ 0 ≤ q.c
  · rw [if_pos hg]
    by_cases hr : r = q.r.toNat
    · subst hr
      rw [getD_setStatusRows_self, setStatusRow_length]
    · rw [getD_setStatusRows_ne _ _ _ _ _ hr]
  · rw [if_neg hg]

theorem inGrid_setStatusAt (g : Grid) (q : Coordinate) (st : TileStatus) (p : Coordinate) :
    inGrid (setStatusAt g q st) p ↔ inGrid g p := by
  unfold inGrid rowsOf
  rw [rowLength_setStatusAt]
  unfold setStatusAt
  by_cases hg : 0 ≤ q.r ∧ 0 ≤ q.c
  · rw [if_pos hg, setStatusRows_length]
  · rw [if_neg hg]

theorem tileAt_setStatusAt_self (g : Grid) (p : Coordinate) (st : TileStatus)
    (h : inGrid g p) :
    tileAt (setStatusAt g p st) p.r p.c = { tileAt g p.r p.c with status := st } := by
  obtain ⟨h1, h2, h3, h4⟩ := h
  unfold setStatusAt tileAt
  rw [if_pos ⟨h1, h2⟩, if_pos ⟨h1, h2⟩, if_pos ⟨h1, h2⟩]
  rw [getD_setStatusRows_self]
  exact getD_setStatusRow_self _ _ _ _ h4

theorem tileAt_setStatusAt_ne (g : Grid) (p q : Coordinate) (st : TileStatus)
    (hne : q ≠ p) :
    tileAt (setStatusAt g p st) q.r q.c = tileAt g q.r q.c := by
  unfold setStatusAt
  by_cases hg : 0 ≤ p.r ∧ 0 ≤ p.c
  · rw [if_pos hg]
    by_cases hq : 0 ≤ q.r ∧ 0 ≤ q.c
    · unfold tileAt
      rw [if_pos hq, if_pos hq]
      have hdiff : q.r.toNat ≠ p.r.toNat ∨ q.c.toNat ≠ p.c.toNat := by
        by_contra hcon
        push_neg at hcon
        obtain ⟨hr, hc⟩ := hcon
        apply hne
        have hr' : q.r = p.r := by
          have := congrArg (fun n : ℕ => (n : ℤ)) hr
          simpa [Int.toNat_of_nonneg hq.1, Int.toNat_of_nonneg hg.1] using this
        have hc' : q.c = p.c := by
          have := congrArg (fun n : ℕ => (n : ℤ)) hc
          simpa [Int.toNat_of_nonneg hq.2, Int.toNat_of_nonneg hg.2] using this
        cases q; cases p
        simp_all
      rcases hdiff with hd | hd
      · rw [getD_setStatusRows_ne _ _ _ _ _ hd]
      · by_cases hr : q.r.toNat = p.r.toNat
        · rw [hr, getD_setStatusRows_self]
          exact getD_setStatusRow_ne _ _ _ _ _ hd
        · rw [getD_setStatusRows_ne _ _ _ _ _ hr]
    · unfold tileAt
      rw [if_neg hq, if_neg hq]
  · rw [if_neg hg]

theorem tileAt_foldSet_notMem (coords : List Coordinate) (G : Grid) (p : Coordinate)
    (st : TileStatus) (h : p ∉ coords) :
    tileAt (coords.foldl (fun acc q => setStatusAt acc q st) G) p.r p.c = tileAt G p.r p.c := by
  induction coords generalizing G with
  | nil => rfl
  | cons q cs ih =>
    simp only [List.mem_cons, not_or] at h
    rw [List.foldl_cons, ih _ h.2]
    exact tileAt_setStatusAt_ne G q p st h.1

theorem status_foldSet_mem (coords : List Coordinate) (G : Grid) (p : Coordinate)
    (st : TileStatus) (hp : p ∈ coords) (hin : inGrid G p) :
    (tileAt (coords.foldl (fun acc q => setStatusAt acc q st) G) p.r p.c).status = st := by
  induction coords generalizing G with
  | nil => simp at hp
  | cons q cs ih =>
    rw [List.foldl_cons]
    by_cases hmem : p ∈ cs
    · exact ih _ hmem ((inGrid_setStatusAt G q st p).mpr hin)
    · have hpq : p = q := by
        rcases List.mem_cons.mp hp with h | h
        · exact h
        · exact absurd h hmem
      subst hpq
      rw [tileAt_foldSet_notMem cs _ p st hmem, tileAt_setStatusAt_self G p st hin]

theorem getD_map_rows (f : List TileData → List TileData) (g : List (List TileData)) (r : ℕ)
    (h : r < g.length) : (g.map f).getD r [] = f (g.getD r []) := by
  induction g generalizing r with
  | nil => simp at h
  | cons row rest ih =>
    cases r with
    | zero => rfl
    | succ j =>
      simp only [List.map_cons, List.getD_cons_succ]
      exact ih j (by simpa using h)

theorem inGrid_resetGrid (g : Grid) (p : Coordinate) (f : TileData → TileData) :
    inGrid ((g : List (List TileData)).map (fun row => row.map f)) p ↔ inGrid g p := by
  unfold inGrid rowsOf
  constructor
  · rintro ⟨h1, h2, h3, h4⟩
    refine ⟨h1, h2, by simpa using h3, ?_⟩
    rw [getD_map_rows _ _ _ (by simpa using h3)] at h4
    simpa using h4
  · rintro ⟨h1, h2, h3, h4⟩
    refine ⟨h1, h2, by simpa using h3, ?_⟩
    rw [getD_map_rows _ _ _ (by simpa using h3)]
    simpa using h4

/-! ## Path-evaluation claim (C5) -/

/-- C5: after every accepted selection mutation with a non-empty traced
word, the status applied to the path tiles is `VALID` exactly when the
trie lookup is 2 (ExactWord) and the word has length ≥ MIN_WORD_LENGTH;
`SELECTED` whenever the lookup is non-zero but the VALID condition fails;
and `REJECT` exactly when the lookup is 0 (NoMatch); and every selected
in-grid tile indeed receives that status. -/
theorem claim_C5_selection_status (trie : TrieNode) (g : Grid) (sel : List Coordinate)
    (h : wordOf g sel ≠ []) :
    (evalStatus trie g sel = TileStatus.VALID ↔
      trie.search (wordOf g sel) = 2 ∧ MIN_WORD_LENGTH ≤ (wordOf g sel).length) ∧
    (evalStatus trie g sel = TileStatus.SELECTED ↔
      (trie.search (wordOf g sel) ≠ 0 ∧
        ¬(trie.search (wordOf g sel) = 2 ∧ MIN_WORD_LENGTH ≤ (wordOf g sel).length))) ∧
    (evalStatus trie g sel = TileStatus.REJECT ↔ trie.search (wordOf g sel) = 0) ∧
    (∀ p ∈ sel, inGrid g p →
      (tileAt (evaluateSelection trie g sel) p.r p.c).status = evalStatus trie g sel) := by
  have hlen : 0 < (wordOf g sel).length := List.length_pos.mpr h
  have hst : evalStatus trie g sel =
      (if trie.search (wordOf g sel) = 2 ∧ MIN_WORD_LENGTH ≤ (wordOf g sel).length then
        TileStatus.VALID
      else if trie.search (wordOf g sel) ≠ 0 then TileStatus.SELECTED
      else TileStatus.REJECT) := by
    unfold evalStatus
    rw [if_pos hlen]
  refine ⟨?_, ?_, ?_, ?_⟩
  · rw [hst]; split_ifs with h1 h2 <;> simp_all
  · rw [hst]; split_ifs with h1 h2 <;> simp_all
  · rw [hst]; split_ifs with h1 h2 <;> simp_all
  · intro p hp hin
    unfold evaluateSelection updateTileStatus
    exact status_foldSet_mem sel _ p _ hp ((inGrid_resetGrid g p _).mpr hin)

/-- Witness for C5: tracing CAT on a CAT dictionary marks the path VALID,
and the first path tile actually receives that status in the grid. -/
theorem claim_C5_selection_status_witness :
    evalStatus catTrie gridCAT [⟨0, 0⟩, ⟨0, 1⟩, ⟨0, 2⟩] = TileStatus.VALID ∧
    (tileAt (evaluateSelection catTrie gridCAT [⟨0, 0⟩, ⟨0, 1⟩, ⟨0, 2⟩]) 0 0).status
      = evalStatus catTrie gridCAT [⟨0, 0⟩, ⟨0, 1⟩, ⟨0, 2⟩] := by
  refine ⟨by decide, ?_⟩
  exact (claim_C5_selection_status catTrie gridCAT [⟨0, 0⟩, ⟨0, 1⟩, ⟨0, 2⟩]
    (by decide)).2.2.2 ⟨0, 0⟩ (by decide) (by decide)

/-! ## Scoring claim (C1) -/

/-- The code's `SCORES[len] || SCORES[10] || 10` agrees with the claim's
base table for every length. -/
theorem baseWordScore_eq_spec (len : ℕ) : baseWordScore len = specBaseScore len := by
  unfold baseWordScore SCORES specBaseScore
  rcases len with _|_|_|_|_|_|_|_|_|_|_|n <;> rfl

theorem hasWild_iff (g : Grid) (sel : List Coordinate) :
    hasWild g sel = true ↔ ∃ p ∈ sel, (tileAt g p.r p.c).color = WILD_COLOR := by
  unfold hasWild
  rw [List.any_eq_true]
  simp

theorem mem_colorsInWord (g : Grid) (sel : List Coordinate) (x : String) :
    x ∈ colorsInWord g sel ↔
      (x ≠ WILD_COLOR ∧ x ≠ "RAINBOW") ∧ ∃ p ∈ sel, (tileAt g p.r p.c).color = x := by
  unfold colorsInWord
  rw [List.mem_filter]
  simp [decide_eq_true_iff]
  tauto

theorem dedup_length_le_one_iff {α : Type} [DecidableEq α] (l : List α) :
    l.dedup.length ≤ 1 ↔ ∀ a ∈ l, ∀ b ∈ l, a = b := by
  constructor
  · intro h a ha b hb
    have ha' : a ∈ l.dedup := List.mem_dedup.mpr ha
    have hb' : b ∈ l.dedup := List.mem_dedup.mpr hb
    rcases hD : l.dedup with _ | ⟨x, xs⟩
    · rw [hD] at ha'; simp at ha'
    · rw [hD] at ha' hb' h
      have hxs : xs = [] := by simpa using h
      subst hxs
      simp at ha' hb'
      rw [ha', hb']
  · intro h
    rcases hl : l with _ | ⟨c, rest⟩
    · simp
    · have hsub : (c :: rest).dedup.toFinset ⊆ {c} := by
        intro x hx
        rw [List.mem_toFinset, List.mem_dedup] at hx
        rw [Finset.mem_singleton]
        exact h x (hl ▸ hx) c (hl ▸ List.mem_cons_self c rest)
      calc (c :: rest).dedup.length
          = (c :: rest).dedup.toFinset.card :=
            (List.toFinset_card_of_nodup (List.nodup_dedup _)).symm
        _ ≤ ({c} : Finset α).card := Finset.card_le_card hsub
        _ = 1 := Finset.card_singleton c

theorem isColorMatch_iff (g : Grid) (sel : List Coordinate) :
    isColorMatch g sel = true ↔
      ((∃ p ∈ sel, (tileAt g p.r p.c).color ≠ WILD_COLOR ∧
          (tileAt g p.r p.c).color ≠ "RAINBOW") ∧
       (∀ p ∈ sel, ∀ p' ∈ sel,
          (tileAt g p.r p.c).color ≠ WILD_COLOR → (tileAt g p.r p.c).color ≠ "RAINBOW" →
          (tileAt g p'.r p'.c).color ≠ WILD_COLOR → (tileAt g p'.r p'.c).color ≠ "RAINBOW" →
          (tileAt g p.r p.c).color = (tileAt g p'.r p'.c).color)) := by
  unfold isColorMatch
  rw [Bool.and_eq_true, decide_eq_true_iff, decide_eq_true_iff, dedup_length_le_one_iff]
  constructor
  · rintro ⟨hne, hall⟩
    constructor
    · obtain ⟨x, hx⟩ := List.exists_mem_of_ne_nil _ hne
      obtain ⟨⟨hx1, hx2⟩, p, hp, hpc⟩ := (mem_colorsInWord g sel x).mp hx
      exact ⟨p, hp, by rw [hpc]; exact hx1, by rw [hpc]; exact hx2⟩
    · intro p hp p' hp' h1 h2 h3 h4
      exact hall _ ((mem_colorsInWord g sel _).mpr ⟨⟨h1, h2⟩, p, hp, rfl⟩)
        _ ((mem_colorsInWord g sel _).mpr ⟨⟨h3, h4⟩, p', hp', rfl⟩)
  · rintro ⟨⟨p, hp, h1, h2⟩, hall⟩
    constructor
    · intro hnil
      have hmem : (tileAt g p.r p.c).color ∈ colorsInWord g sel :=
        (mem_colorsInWord g sel _).mpr ⟨⟨h1, h2⟩, p, hp, rfl⟩
      rw [hnil] at hmem
      simp at hmem
    · intro a ha b hb
      obtain ⟨⟨ha1, ha2⟩, pa, hpa, hpac⟩ := (mem_colorsInWord g sel a).mp ha
      obtain ⟨⟨hb1, hb2⟩, pb, hpb, hpbc⟩ := (mem_colorsInWord g sel b).mp hb
      rw [← hpac, ← hpbc]
      exact hall pa hpa pb hpb (by rw [hpac]; exact ha1) (by rw [hpac]; exact ha2)
        (by rw [hpbc]; exact hb1) (by rw [hpbc]; exact hb2)

/-- C1: the total score a valid submitted word adds to the session equals
`base(length) * m + 50 * E`, where `base` is the claim's table,
`m` is 3 on a wild tile, else 2 on a color match (some non-wild non-bomb
color shared by all such tiles), else 1, and `E` is the number of exploded
tiles, whose bonus is added after the multiplication. -/
theorem claim_C1_scoring (g : Grid) (sel : List Coordinate)
    (_h : MIN_WORD_LENGTH ≤ (wordOf g sel).length) :
    totalScoreOf g sel =
      specBaseScore (wordOf g sel).length * specMultiplier g sel
        + 50 * (computeExploded g sel).length := by
  unfold totalScoreOf specMultiplier
  rw [baseWordScore_eq_spec]
  by_cases hw : ∃ p ∈ sel, (tileAt g p.r p.c).color = WILD_COLOR
  · have hb : hasWild g sel = true := (hasWild_iff g sel).mpr hw
    rw [if_pos hw]
    simp only [hb, if_true]
    ring
  · have hb : hasWild g sel = false := by
      cases hx : hasWild g sel
      · rfl
      · exact absurd ((hasWild_iff g sel).mp hx) hw
    rw [if_neg hw]
    by_cases hc : (∃ p ∈ sel, (tileAt g p.r p.c).color ≠ WILD_COLOR ∧
          (tileAt g p.r p.c).color ≠ "RAINBOW") ∧
        (∀ p ∈ sel, ∀ p' ∈ sel,
          (tileAt g p.r p.c).color ≠ WILD_COLOR → (tileAt g p.r p.c).color ≠ "RAINBOW" →
          (tileAt g p'.r p'.c).color ≠ WILD_COLOR → (tileAt g p'.r p'.c).color ≠ "RAINBOW" →
          (tileAt g p.r p.c).color = (tileAt g p'.r p'.c).color)
    · have hcm : isColorMatch g sel = true := (isColorMatch_iff g sel).mpr hc
      rw [if_pos hc]
      simp only [hb, hcm, Bool.false_eq_true, if_false, if_true]
      ring
    · have hcm : isColorMatch g sel = false := by
        cases hx : isColorMatch g sel
        · rfl
        · exact absurd ((isColorMatch_iff g sel).mp hx) hc
      rw [if_neg hc]
      simp only [hb, hcm, Bool.false_eq_true, if_false]
      ring

/-- Witness for C1: tracing CAT over a wild C and a bomb A scores
10 × 3 + 3 × 50 = 180 (the bomb explodes the three tiles of the row
below within the 6-by-6 bounds). -/
theorem claim_C1_scoring_witness :
    MIN_WORD_LENGTH ≤ (wordOf gridWildBomb [⟨0, 0⟩, ⟨0, 1⟩, ⟨0, 2⟩]).length ∧
    totalScoreOf gridWildBomb [⟨0, 0⟩, ⟨0, 1⟩, ⟨0, 2⟩] =
      specBaseScore (wordOf gridWildBomb [⟨0, 0⟩, ⟨0, 1⟩, ⟨0, 2⟩]).length
        * specMultiplier gridWildBomb [⟨0, 0⟩, ⟨0, 1⟩, ⟨0, 2⟩]
        + 50 * (computeExploded gridWildBomb [⟨0, 0⟩, ⟨0, 1⟩, ⟨0, 2⟩]).length :=
  ⟨by decide, claim_C1_scoring gridWildBomb [⟨0, 0⟩, ⟨0, 1⟩, ⟨0, 2⟩] (by decide)⟩

/-! ## Deadlock-search and selection exclusion (C4) -/

/-- Counterexample to C4 as stated: on a grid whose CAT tiles are all in
`MATCHED` status, `findFirstWord` still returns the path through them
(its only exclusion is `isBlocked`), and `handleTouchStart` happily starts
a selection on a `MATCHED` tile. -/
theorem claim_C4_counterexample :
    findFirstWord gridMatchedCAT catTrie = some [⟨0, 0⟩, ⟨0, 1⟩, ⟨0, 2⟩] ∧
    (tileAt gridMatchedCAT 0 1).status = TileStatus.MATCHED ∧
    touchStartSel gridMatchedCAT [] false false Screen.GAME 0 0 = [⟨0, 0⟩] ∧
    (tileAt gridMatchedCAT 0 0).status = TileStatus.MATCHED :=
  ⟨by decide, by decide, by decide, by decide⟩

theorem searchStep_no_blocked (g : Grid) (trie : TrieNode) :
    ∀ (fuel : ℕ) (r c : ℤ) (path : List Coordinate) (str : List Char)
      (res : List Coordinate),
      (∀ p ∈ path, (tileAt g p.r p.c).isBlocked = false) →
      searchStep g trie fuel r c path str = some res →
      ∀ p ∈ res, (tileAt g p.r p.c).isBlocked = false := by
  intro fuel
  induction fuel with
  | zero => intro r c path str res _ heq; exact absurd heq (by simp [searchStep])
  | succ fuel ih =>
    intro r c path str res hpath heq
    rw [searchStep] at heq
    cases hbl : (tileAt g r c).isBlocked with
    | true => rw [if_pos (by rw [hbl])] at heq; exact absurd heq (by simp)
    | false =>
      rw [if_neg (by rw [hbl]; simp)] at heq
      simp only at heq
      split_ifs at heq with h1 h2 h3
      · have hres : res = path ++ [⟨r, c⟩] := (Option.some_inj.mp heq).symm
        subst hres
        intro p hp
        rcases List.mem_append.mp hp with h | h
        · exact hpath p h
        · have hpc : p = ⟨r, c⟩ := by simpa using h
          subst hpc
          exact hbl
      · obtain ⟨nb, _, hnb⟩ := List.exists_of_findSome?_eq_some heq
        split_ifs at hnb with hb1 hb2
        · refine ih nb.1 nb.2 (path ++ [⟨r, c⟩]) _ res ?_ hnb
          intro p hp
          rcases List.mem_append.mp hp with h | h
          · exact hpath p h
          · have hpc : p = ⟨r, c⟩ := by simpa using h
            subst hpc
            exact hbl

/-- C4 amended: the per-tile exclusion that `findFirstWord` and the
selection handlers actually implement is the blocked-tile exclusion:
`findFirstWord` never puts a blocked tile's coordinate in a returned path,
and a selection never starts on, or extends onto, a blocked tile
(`MATCHED`/`EXPLODED` tiles are not checked by these functions; they are
kept out of reach by the `animating` gate instead). -/
theorem claim_C4_blocked_exclusion (g : Grid) (trie : TrieNode) (sel : List Coordinate)
    (animating isLoading : Bool) (screen : Screen) (r c : ℤ) :
    (∀ res, findFirstWord g trie = some res →
      ∀ p ∈ res, (tileAt g p.r p.c).isBlocked = false) ∧
    ((tileAt g r c).isBlocked = true →
      touchStartSel g sel animating isLoading screen r c = sel) ∧
    ((tileAt g r c).isBlocked = true →
      touchMoveSel g sel animating isLoading screen r c = sel) := by
  refine ⟨?_, ?_, ?_⟩
  · intro res hres
    unfold findFirstWord findFirstWordFuel at hres
    obtain ⟨rc, _, hstep⟩ := List.exists_of_findSome?_eq_some hres
    exact searchStep_no_blocked g trie _ rc.1 rc.2 [] [] res (by simp) hstep
  · intro hbl
    unfold touchStartSel
    split_ifs <;> simp_all
  · intro hbl
    unfold touchMoveSel
    split_ifs <;> simp_all

/-- Witness for C4's amended statement: on a CAT row with one blocked
tile, the found path avoids the blocked tile and touching the blocked
tile starts no selection. -/
theorem claim_C4_blocked_exclusion_witness :
    (∀ p ∈ ([⟨0, 0⟩, ⟨0, 1⟩, ⟨0, 2⟩] : List Coordinate),
      (tileAt gridCATBlocked p.r p.c).isBlocked = false) ∧
    touchStartSel gridCATBlocked [] false false Screen.GAME 0 3 = [] :=
  ⟨(claim_C4_blocked_exclusion gridCATBlocked catTrie [] false false Screen.GAME 0 3).1
      [⟨0, 0⟩, ⟨0, 1⟩, ⟨0, 2⟩] (by decide),
   (claim_C4_blocked_exclusion gridCATBlocked catTrie [] false false Screen.GAME 0 3).2.1
      (by decide)⟩

/-! ## Deadlock-search termination and depth bound (C7) -/

theorem searchStep_path_length (g : Grid) (trie : TrieNode)
    (hlet : ∀ r c : ℤ, 0 ≤ r → r < (rowsOf g : ℤ) → 0 ≤ c → c < (colsOf g : ℤ) →
      (tileAt g r c).isBlocked = false → (tileAt g r c).letter.length = 1) :
    ∀ (fuel : ℕ) (r c : ℤ) (path : List Coordinate) (str : List Char)
      (res : List Coordinate),
      str.length = path.length → str.length ≤ 7 →
      0 ≤ r → r < (rowsOf g : ℤ) → 0 ≤ c → c < (colsOf g : ℤ) →
      searchStep g trie fuel r c path str = some res →
      res.length ≤ 8 := by
  intro fuel
  induction fuel with
  | zero =>
    intro r c path str res _ _ _ _ _ _ heq
    exact absurd heq (by simp [searchStep])
  | succ fuel ih =>
    intro r c path str res hsl h7 hr0 hr1 hc0 hc1 heq
    rw [searchStep] at heq
    cases hbl : (tileAt g r c).isBlocked with
    | true => rw [if_pos (by rw [hbl])] at heq; exact absurd heq (by simp)
    | false =>
      rw [if_neg (by rw [hbl]; simp)] at heq
      simp only at heq
      have hlen1 : (tileAt g r c).letter.length = 1 := hlet r c hr0 hr1 hc0 hc1 hbl
      split_ifs at heq with h1 h2 h3
      · have hres : res = path ++ [⟨r, c⟩] := (Option.some_inj.mp heq).symm
        subst hres
        rw [List.length_append]
        simp
        omega
      · obtain ⟨nb, hnbmem, hnb⟩ := List.exists_of_findSome?_eq_some heq
        split_ifs at hnb with hb1 hb2
        obtain ⟨hb1a, hb1b, hb1c, hb1d⟩ := hb1
        refine ih nb.1 nb.2 (path ++ [⟨r, c⟩]) (str ++ (tileAt g r c).letter) res
          ?_ ?_ hb1a hb1b hb1c hb1d hnb
        · rw [List.length_append, List.length_append, hlen1, hsl]
          simp
        · rw [List.length_append] at h3 ⊢
          omega

theorem coordList_length_le (rows cols : ℕ) (l : List Coordinate)
    (hnd : l.Nodup)
    (hb : ∀ p ∈ l, 0 ≤ p.r ∧ p.r < (rows : ℤ) ∧ 0 ≤ p.c ∧ p.c < (cols : ℤ)) :
    l.length ≤ rows * cols := by
  classical
  set f : Coordinate → ℕ := fun p => p.c.toNat + p.r.toNat * cols with hf
  have hbounds : ∀ p ∈ l, p.c.toNat < cols ∧ p.r.toNat < rows := by
    intro p hp
    obtain ⟨h1, h2, h3, h4⟩ := hb p hp
    constructor
    · omega
    · omega
  have hinj : ∀ x ∈ l, ∀ y ∈ l, f x = f y → x = y := by
    intro x hx y hy hxy
    obtain ⟨hxc, hxr⟩ := hbounds x hx
    obtain ⟨hyc, hyr⟩ := hbounds y hy
    have hcols : 0 < cols := by omega
    have hceq : x.c.toNat = y.c.toNat := by
      have h1 := congrArg (· % cols) hxy
      simp only [hf, Nat.add_mul_mod_self_right] at h1
      rwa [Nat.mod_eq_of_lt hxc, Nat.mod_eq_of_lt hyc] at h1
    have hreq : x.r.toNat = y.r.toNat := by
      have h2 : x.r.toNat * cols = y.r.toNat * cols := by
        simp only [hf] at hxy
        omega
      exact Nat.eq_of_mul_eq_mul_right hcols h2
    obtain ⟨h1, -, h3, -⟩ := hb x hx
    obtain ⟨h5, -, h7, -⟩ := hb y hy
    have hr : x.r = y.r := by omega
    have hc : x.c = y.c := by omega
    cases x; cases y
    simp_all
  have hmapnd : (l.map f).Nodup := List.Nodup.map_on hinj hnd
  have hmaplt : ∀ n ∈ l.map f, n < rows * cols := by
    intro n hn
    obtain ⟨p, hp, hfp⟩ := List.mem_map.mp hn
    obtain ⟨hpc, hpr⟩ := hbounds p hp
    have hstep : (p.r.toNat + 1) * cols ≤ rows * cols :=
      Nat.mul_le_mul_right cols (by omega)
    have hexp : (p.r.toNat + 1) * cols = p.r.toNat * cols + cols := by ring
    subst hfp
    simp only [hf]
    omega
  have hsub : (l.map f).toFinset ⊆ Finset.range (rows * cols) := by
    intro n hn
    rw [Finset.mem_range]
    exact hmaplt n (List.mem_toFinset.mp hn)
  calc l.length = (l.map f).length := (List.length_map _ _).symm
    _ = (l.map f).toFinset.card := (List.toFinset_card_of_nodup hmapnd).symm
    _ ≤ (Finset.range (rows * cols)).card := Finset.card_le_card hsub
    _ = rows * cols := Finset.card_range _

theorem searchNeighbors_ne_center (r c : ℤ) (nb : ℤ × ℤ)
    (h : nb ∈ searchNeighbors r c) : ¬(nb.1 = r ∧ nb.2 = c) := by
  simp only [searchNeighbors, List.mem_cons, List.not_mem_nil, or_false] at h
  rcases h with rfl | rfl | rfl | rfl | rfl | rfl | rfl | rfl <;> simp

theorem findSome?_congr {α β : Type} (f f' : α → Option β) (l : List α)
    (h : ∀ a ∈ l, f a = f' a) : l.findSome? f = l.findSome? f' := by
  induction l with
  | nil => rfl
  | cons a as ih =>
    rw [List.findSome?_cons, List.findSome?_cons, h a (by simp)]
    cases f' a
    · exact ih (fun b hb => h b (by simp [hb]))
    · rfl

theorem nodup_append_single (path : List Coordinate) (x : Coordinate)
    (hnd : path.Nodup) (hx : x ∉ path) : (path ++ [x]).Nodup := by
  rw [List.nodup_append]
  refine ⟨hnd, List.nodup_singleton x, ?_⟩
  intro a ha hax
  have hae : a = x := by simpa using hax
  subst hae
  exact hx ha

theorem searchPath_room (g : Grid) (path : List Coordinate) (r c : ℤ)
    (hnd : path.Nodup)
    (hbp : ∀ p ∈ path, 0 ≤ p.r ∧ p.r < (rowsOf g : ℤ) ∧ 0 ≤ p.c ∧ p.c < (colsOf g : ℤ))
    (hbc : 0 ≤ r ∧ r < (rowsOf g : ℤ) ∧ 0 ≤ c ∧ c < (colsOf g : ℤ))
    (hnotin : (⟨r, c⟩ : Coordinate) ∉ path) :
    path.length + 1 ≤ rowsOf g * colsOf g := by
  have hext := nodup_append_single path ⟨r, c⟩ hnd hnotin
  have hb : ∀ p ∈ path ++ [(⟨r, c⟩ : Coordinate)],
      0 ≤ p.r ∧ p.r < (rowsOf g : ℤ) ∧ 0 ≤ p.c ∧ p.c < (colsOf g : ℤ) := by
    intro p hp
    rcases List.mem_append.mp hp with h | h
    · exact hbp p h
    · have hpe : p = ⟨r, c⟩ := by simpa using h
      subst hpe
      exact hbc
  have hle := coordList_length_le (rowsOf g) (colsOf g) _ hext hb
  simpa using hle

theorem searchStep_fuel_congr (g : Grid) (trie : TrieNode) :
    ∀ (n m : ℕ) (r c : ℤ) (path : List Coordinate) (str : List Char),
      path.Nodup →
      (∀ p ∈ path, 0 ≤ p.r ∧ p.r < (rowsOf g : ℤ) ∧ 0 ≤ p.c ∧ p.c < (colsOf g : ℤ)) →
      (0 ≤ r ∧ r < (rowsOf g : ℤ) ∧ 0 ≤ c ∧ c < (colsOf g : ℤ)) →
      (⟨r, c⟩ : Coordinate) ∉ path →
      rowsOf g * colsOf g ≤ n + path.length →
      rowsOf g * colsOf g ≤ m + path.length →
      searchStep g trie n r c path str = searchStep g trie m r c path str := by
  intro n
  induction n with
  | zero =>
    intro m r c path str hnd hbp hbc hnotin hn _
    exfalso
    have := searchPath_room g path r c hnd hbp hbc hnotin
    omega
  | succ n ih =>
    intro m r c path str hnd hbp hbc hnotin hn hm
    cases m with
    | zero =>
      exfalso
      have := searchPath_room g path r c hnd hbp hbc hnotin
      omega
    | succ m =>
      rw [searchStep, searchStep]
      apply if_congr Iff.rfl rfl
      apply if_congr Iff.rfl rfl
      apply if_congr Iff.rfl rfl
      apply if_congr Iff.rfl rfl
      apply findSome?_congr
      intro nb hnbmem
      by_cases hbnd : 0 ≤ nb.1 ∧ nb.1 < (rowsOf g : ℤ) ∧ 0 ≤ nb.2 ∧ nb.2 < (colsOf g : ℤ)
      · rw [if_pos hbnd, if_pos hbnd]
        by_cases hmem : ¬ ∃ p ∈ path, p.r = nb.1 ∧ p.c = nb.2
        · rw [if_pos hmem, if_pos hmem]
          refine ih m nb.1 nb.2 (path ++ [⟨r, c⟩]) (str ++ (tileAt g r c).letter)
            ?_ ?_ ?_ ?_ ?_ ?_
          · exact nodup_append_single path ⟨r, c⟩ hnd hnotin
          · intro p hp
            rcases List.mem_append.mp hp with h | h
            · exact hbp p h
            · have hpe : p = ⟨r, c⟩ := by simpa using h
              subst hpe
              exact hbc
          · exact hbnd
          · intro hmem'
            rcases List.mem_append.mp hmem' with h | h
            · exact hmem ⟨⟨nb.1, nb.2⟩, h, rfl, rfl⟩
            · have hpe : (⟨nb.1, nb.2⟩ : Coordinate) = ⟨r, c⟩ := by simpa using h
              have : nb.1 = r ∧ nb.2 = c := by
                constructor
                · exact congrArg Coordinate.r hpe
                · exact congrArg Coordinate.c hpe
              exact searchNeighbors_ne_center r c nb hnbmem this
          · rw [List.length_append]
            simp
            omega
          · rw [List.length_append]
            simp
            omega
        · rw [if_neg hmem, if_neg hmem]
      · rw [if_neg hbnd, if_neg hbnd]

theorem mem_allCells (g : Grid) (rc : ℤ × ℤ) (h : rc ∈ allCells g) :
    0 ≤ rc.1 ∧ rc.1 < (rowsOf g : ℤ) ∧ 0 ≤ rc.2 ∧ rc.2 < (colsOf g : ℤ) := by
  simp only [allCells, List.mem_flatten, List.mem_map, List.mem_range] at h
  obtain ⟨l, ⟨r, hr, rfl⟩, hmem⟩ := h
  simp only [List.mem_map, List.mem_range] at hmem
  obtain ⟨c, hc, rfl⟩ := hmem
  refine ⟨?_, ?_, ?_, ?_⟩
  · show (0 : ℤ) ≤ Int.ofNat r
    rw [Int.ofNat_eq_natCast]
    omega
  · show Int.ofNat r < (rowsOf g : ℤ)
    rw [Int.ofNat_eq_natCast]
    omega
  · show (0 : ℤ) ≤ Int.ofNat c
    rw [Int.ofNat_eq_natCast]
    omega
  · show Int.ofNat c < (colsOf g : ℤ)
    rw [Int.ofNat_eq_natCast]
    omega

/-- C7: `findFirstWord`'s depth-first search is insensitive to any fuel
beyond `rows*cols + 1` (every recursive call extends a duplicate-free
in-bounds path, so the recursion depth is bounded and the search
terminates on every grid), and — on grids whose non-blocked tiles carry
one-character letters, as every generated tile does — any returned path
has at most 8 coordinates, because a branch is abandoned once the
accumulated string reaches length 8. -/
theorem claim_C7_search_bound (g : Grid) (trie : TrieNode)
    (hlet : ∀ r c : ℤ, 0 ≤ r → r < (rowsOf g : ℤ) → 0 ≤ c → c < (colsOf g : ℤ) →
      (tileAt g r c).isBlocked = false → (tileAt g r c).letter.length = 1) :
    (∀ fuel, rowsOf g * colsOf g + 1 ≤ fuel →
      findFirstWordFuel g trie fuel = findFirstWord g trie) ∧
    (∀ res, findFirstWord g trie = some res → res.length ≤ 8) := by
  constructor
  · intro fuel hfuel
    unfold findFirstWord findFirstWordFuel
    apply findSome?_congr
    intro rc hrc
    have hb := mem_allCells g rc hrc
    exact searchStep_fuel_congr g trie fuel (rowsOf g * colsOf g + 1) rc.1 rc.2 [] []
      List.nodup_nil (by simp) hb (by simp) (by simp; omega) (by simp)
  · intro res hres
    unfold findFirstWord findFirstWordFuel at hres
    obtain ⟨rc, hrc, hstep⟩ := List.exists_of_findSome?_eq_some hres
    have hb := mem_allCells g rc hrc
    exact searchStep_path_length g trie hlet _ rc.1 rc.2 [] [] res rfl (by simp)
      hb.1 hb.2.1 hb.2.2.1 hb.2.2.2 hstep

/-- Witness for C7 on the CAT row: fuel 10 agrees with the canonical fuel,
and the path found for CAT has at most 8 coordinates. -/
theorem claim_C7_search_bound_witness :
    findFirstWordFuel gridCAT catTrie 10 = findFirstWord gridCAT catTrie ∧
    ([⟨0, 0⟩, ⟨0, 1⟩, ⟨0, 2⟩] : List Coordinate).length ≤ 8 := by
  have hlet : ∀ r c : ℤ, 0 ≤ r → r < (rowsOf gridCAT : ℤ) → 0 ≤ c →
      c < (colsOf gridCAT : ℤ) →
      (tileAt gridCAT r c).isBlocked = false → (tileAt gridCAT r c).letter.length = 1 := by
    intro r c h1 h2 h3 h4 _
    have hrows : (rowsOf gridCAT : ℤ) = 1 := by decide
    have hcols : (colsOf gridCAT : ℤ) = 3 := by decide
    rw [hrows] at h2
    rw [hcols] at h4
    have hr : r = 0 := by omega
    have hc : c = 0 ∨ c = 1 ∨ c = 2 := by omega
    subst hr
    rcases hc with rfl | rfl | rfl <;> decide
  exact ⟨(claim_C7_search_bound gridCAT catTrie hlet).1 10 (by decide),
    (claim_C7_search_bound gridCAT catTrie hlet).2 [⟨0, 0⟩, ⟨0, 1⟩, ⟨0, 2⟩] (by decide)⟩

/-! ## Gravity/refill claim (C2) -/

theorem generateTile_isNew (level : ℕ) (mode : GameMode) (isNew : Bool)
    (forced : Option SpecialType) (rnd : TileRands) :
    (generateTile level mode isNew forced rnd).isNew = isNew := by
  rcases forced with _ | f
  · unfold generateTile
    dsimp only
    split_ifs <;> rfl
  · cases f <;> rfl

theorem genTiles_length (level : ℕ) (mode : GameMode) :
    ∀ (n : ℕ) (q : List SpecialType) (rs : List TileRands),
      (genTiles level mode n q rs).1.length = n := by
  intro n
  induction n with
  | zero => intro q rs; rfl
  | succ n ih => intro q rs; simp [genTiles, ih]

theorem genTiles_isNew (level : ℕ) (mode : GameMode) :
    ∀ (n : ℕ) (q : List SpecialType) (rs : List TileRands),
      ∀ t ∈ (genTiles level mode n q rs).1, t.isNew = true := by
  intro n
  induction n with
  | zero => intro q rs t ht; simp [genTiles] at ht
  | succ n ih =>
    intro q rs t ht
    simp only [genTiles] at ht
    rcases List.mem_cons.mp ht with h | h
    · rw [h, generateTile_isNew]
    · exact ih q.tail rs.tail t h

theorem survivorsOf_length_le (col : List TileData) :
    (survivorsOf col).length ≤ col.length := by
  unfold survivorsOf
  rw [List.length_map]
  exact List.length_filter_le _ _

theorem gravityColumn_length (level : ℕ) (mode : GameMode) (col : List TileData)
    (q : List SpecialType) (rs : List TileRands) (h : col.length = 6) :
    (gravityColumn level mode col q rs).1.length = 6 := by
  unfold gravityColumn
  rw [List.length_append, genTiles_length]
  have hle := survivorsOf_length_le col
  rw [h] at hle
  unfold GRID_SIZE
  omega

theorem gravityColumns_getD (g : Grid) (level : ℕ) (mode : GameMode) :
    ∀ (cl : List ℕ) (i : ℕ) (q : List SpecialType) (rs : List TileRands), i < cl.length →
      ∃ q' rs', (gravityColumns g level mode cl q rs).getD i []
        = (gravityColumn level mode (getCol g (cl.getD i 0)) q' rs').1 := by
  intro cl
  induction cl with
  | nil => intro i q rs h; simp at h
  | cons c cs ih =>
    intro i q rs h
    cases i with
    | zero => exact ⟨q, rs, rfl⟩
    | succ j =>
      simp only [gravityColumns, List.getD_cons_succ]
      exact ih j _ _ (by simpa using h)

theorem getD_map_range {β : Type} (n i : ℕ) (f : ℕ → β) (d : β) (h : i < n) :
    ((List.range n).map f).getD i d = f i := by
  rw [List.getD_eq_getElem?_getD, List.getElem?_map, List.getElem?_range h]
  rfl

theorem getD_range (n i : ℕ) (d : ℕ) (h : i < n) : (List.range n).getD i d = i := by
  rw [List.getD_eq_getElem?_getD, List.getElem?_range h]
  rfl

theorem range_map_getD_eq (l : List TileData) (n : ℕ) (d : TileData) (h : l.length = n) :
    (List.range n).map (fun i => l.getD i d) = l := by
  apply List.ext_getElem
  · simp [h]
  · intro i h1 h2
    simp only [List.getElem_map, List.getElem_range]
    exact List.getD_eq_getElem l d h2

theorem getCol_applyGravity (g : Grid) (level : ℕ) (mode : GameMode)
    (q : List SpecialType) (rs : List TileRands) (c : ℕ) (hc : c < 6)
    (hmerged : ((gravityColumns g level mode (List.range GRID_SIZE) q rs).getD c []).length = 6) :
    getCol (applyGravity g level mode q rs) c
      = (gravityColumns g level mode (List.range GRID_SIZE) q rs).getD c [] := by
  unfold applyGravity getCol
  rw [List.map_map]
  have hstep : ∀ r ∈ List.range GRID_SIZE,
      ((fun row => row.getD c defaultTile) ∘ (fun r =>
        (List.range GRID_SIZE).map (fun c' =>
          ((gravityColumns g level mode (List.range GRID_SIZE) q rs).getD c' []).getD r defaultTile))) r
      = ((gravityColumns g level mode (List.range GRID_SIZE) q rs).getD c []).getD r defaultTile := by
    intro r _
    exact getD_map_range GRID_SIZE c _ defaultTile (by simpa [GRID_SIZE] using hc)
  rw [List.map_congr_left hstep]
  exact range_map_getD_eq _ _ _ hmerged

/-- C2: after `applyGravity`, the grid is again 6×6 and every column is
`[...new tiles, ...survivors]`: the tiles whose status was neither
`MATCHED` nor `EXPLODED` survive in their original top-to-bottom order
with `isNew` cleared (that is `survivorsOf`), topped up to exactly
`GRID_SIZE = 6` tiles by newly generated tiles that all carry
`isNew = true`. -/
theorem claim_C2_gravity (g : Grid) (level : ℕ) (mode : GameMode)
    (q : List SpecialType) (rs : List TileRands)
    (hrows : (g : List (List TileData)).length = 6)
    (_hcols : ∀ row ∈ (g : List (List TileData)), row.length = 6)
    (c : ℕ) (hc : c < 6) :
    ((applyGravity g level mode q rs : List (List TileData)).length = 6) ∧
    (∀ row ∈ (applyGravity g level mode q rs : List (List TileData)), row.length = 6) ∧
    ∃ newTiles : List TileData,
      getCol (applyGravity g level mode q rs) c = newTiles ++ survivorsOf (getCol g c) ∧
      newTiles.length + (survivorsOf (getCol g c)).length = 6 ∧
      ∀ t ∈ newTiles, t.isNew = true := by
  refine ⟨?_, ?_, ?_⟩
  · unfold applyGravity
    simp [GRID_SIZE]
  · intro row hrow
    unfold applyGravity at hrow
    simp only [List.mem_map] at hrow
    obtain ⟨r, _, rfl⟩ := hrow
    simp [GRID_SIZE]
  · have hcol6 : (getCol g c).length = 6 := by
      unfold getCol
      rw [List.length_map, hrows]
    obtain ⟨q', rs', hq⟩ := gravityColumns_getD g level mode (List.range GRID_SIZE) c q rs
      (by simpa [GRID_SIZE] using hc)
    rw [getD_range GRID_SIZE c 0 (by simpa [GRID_SIZE] using hc)] at hq
    have hmerged : ((gravityColumns g level mode (List.range GRID_SIZE) q rs).getD c []).length
        = 6 := by
      rw [hq]
      exact gravityColumn_length level mode _ q' rs' hcol6
    refine ⟨(genTiles level mode (GRID_SIZE - (survivorsOf (getCol g c)).length) q' rs').1,
      ?_, ?_, ?_⟩
    · rw [getCol_applyGravity g level mode q rs c hc hmerged, hq]
      rfl
    · rw [genTiles_length]
      have hle := survivorsOf_length_le (getCol g c)
      rw [hcol6] at hle
      unfold GRID_SIZE
      omega
    · exact genTiles_isNew level mode _ _ _

/-- Witness for C2 on a concrete 6×6 grid with one MATCHED tile in
column 0. -/
theorem claim_C2_gravity_witness :
    ((applyGravity gridSix 1 GameMode.CASUAL [] [] : List (List TileData)).length = 6) ∧
    (∀ row ∈ (applyGravity gridSix 1 GameMode.CASUAL [] [] : List (List TileData)),
      row.length = 6) ∧
    ∃ newTiles : List TileData,
      getCol (applyGravity gridSix 1 GameMode.CASUAL [] []) 0
        = newTiles ++ survivorsOf (getCol gridSix 0) ∧
      newTiles.length + (survivorsOf (getCol gridSix 0)).length = 6 ∧
      ∀ t ∈ newTiles, t.isNew = true :=
  claim_C2_gravity gridSix 1 GameMode.CASUAL [] [] (by decide) (by decide) 0 (by decide)
